import Mathlib

/-!
Verification of the battleships game core (`models.py` and `app/api/models.py`).

The Python source is shallowly embedded:
* grids (Python `str`) become `List Char`;
* in-place mutation becomes explicit state passing: a method that mutates
  `self` and may raise becomes a function `State → State × Except Err Ret`,
  where the returned state is the object's state at the moment the method
  returns or raises (Python leaves partial mutations in place on a raise,
  so the error branch carries whatever state the object had at that point);
* Python string indexing / slicing (including negative indices) is modelled
  by `pyGetStr` / `pyIdxClamp`, an out-of-range single-char access being an
  `IndexError`;
* Python `set` values become `Finset Char`;
* distinct `raise` sites become distinct constructors of an error type
  (the Python messages are recorded in comments);
* Python object identity (`is`) is modelled by a `pid` token on `Player`.
-/

namespace Battleships

set_option maxRecDepth 40000

/-- `Ship = namedtuple('Ship', ['name', 'symbol', 'size'])`. -/
structure Ship where
  name : String
  symbol : Char
  size : Nat
deriving DecidableEq

/-- The `symbol_to_ship` dict, as its (insertion-ordered) list of values:
`Carrier/Battleship/Cruiser/Submarine/Destroyer`. -/
def ships : List Ship :=
  [⟨"Carrier", 'C', 5⟩, ⟨"Battleship", 'B', 4⟩, ⟨"Cruiser", 'R', 3⟩,
   ⟨"Submarine", 'S', 3⟩, ⟨"Destroyer", 'D', 2⟩]

/-- `symbol_to_ship[c]` as a partial lookup (`none` = Python `KeyError`). -/
def symbol_to_ship (c : Char) : Option Ship :=
  ships.find? (fun s => s.symbol == c)

/-- Python single-char string indexing `s[i]`: nonnegative indices from the
front, negative indices from the back, `none` when the access raises
`IndexError`. -/
def pyGetStr (l : List Char) (i : Int) : Option Char :=
  if 0 ≤ i then l.get? i.toNat
  else if 0 ≤ i + l.length then l.get? (i + l.length).toNat
  else none

/-- Python slice-bound normalisation for `s[:j]` / `s[i:]` on a string of
length `n`: negative bounds count from the back and everything is clamped
into `[0, n]`. -/
def pyIdxClamp (n : Nat) (i : Int) : Nat :=
  if i < 0 then (i + n).toNat else min i.toNat n

/-- `self.grid[:xy] + ch + self.grid[xy+1:]` (Python string splicing). -/
def pySplice (l : List Char) (xy : Int) (ch : Char) : List Char :=
  l.take (pyIdxClamp l.length xy) ++ [ch] ++ l.drop (pyIdxClamp l.length (xy + 1))

/-- `Board` state: the immutable `starting_grid` and the mutable `grid`. -/
structure Board where
  starting_grid : List Char
  grid : List Char
deriving DecidableEq

namespace Board

/-- `Board.N`. -/
def N : Nat := 10

/-- `Board.HIT`. -/
def HIT : Char := '+'

/-- `Board.MISS`. -/
def MISS : Char := '-'

/-- `Board.SUNK`. -/
def SUNK : Char := 'x'

/-- `Board.ACTIONS = {HIT, MISS, SUNK}`. -/
def ACTIONS : Finset Char := {HIT, MISS, SUNK}

/-- `Board.NO_ACTION`. -/
def NO_ACTION : Char := '.'

/-- Errors a `Board` method can raise.  `alreadyActed x y` is
`ValueError(f"Field ({x}, {y}) was already acted upon.")`; `keyError` is a
`KeyError` from `symbol_to_ship[symbol]`; `indexError` is an `IndexError`
from an out-of-range string access. -/
inductive Err where
  | alreadyActed (x y : Int)
  | keyError
  | indexError
deriving DecidableEq

/-- `Board._to_1d(x, y) = y*Board.N + x`. -/
def _to_1d (x y : Int) : Int := y * 10 + x

/-- `Board.grid_as_matrix(grid) = [grid[i:i+N] for i in range(0, len(grid), N)]`. -/
def grid_as_matrix (grid : List Char) : List (List Char) :=
  (List.range ((grid.length + 9) / 10)).map (fun k => (grid.drop (10 * k)).take 10)

/-- Length of the tuples produced by Python `zip(*g)`: the minimum row
length (`0` for no rows, matching `zip()` with no arguments). -/
def minRowLen : List (List Char) → Nat
  | [] => 0
  | [r] => r.length
  | r :: rs => min r.length (minRowLen rs)

/-- `[''.join(r) for r in zip(*g)]`: the transpose used by
`validate_starting_grid`, truncating to the shortest row like Python `zip`. -/
def pyZip (g : List (List Char)) : List (List Char) :=
  (List.range (minRowLen g)).map (fun i => g.map (fun row => row.getD i ' '))

/-- The `for r in range(Board.N): if symbol in g[r]: row, col = ...; break`
search over the transposed matrix; `(row, col)` are returned unchanged when
no row of the transpose contains the symbol (no `break` taken). -/
def find_vertical (gt : List (List Char)) (sym : Char) (row col : Nat) : Nat × Nat :=
  match (List.range 10).find? (fun r => (gt.getD r []).contains sym) with
  | some r => (r, (gt.getD r []).indexOf sym)
  | none => (row, col)

/-- The body of the placement loop of `validate_starting_grid` for one ship
symbol: locate the first occurrence, count occurrences in its row, possibly
transpose, then check `col + size <= N` and the slice equality
`g[row][col:col+size] == symbol * size`.  `true` means no `ValueError`. -/
def ship_placed_ok (grid : List Char) (sym : Char) (size : Nat) : Bool :=
  let g := grid_as_matrix grid
  let i := grid.indexOf sym
  let row := i / 10
  let col := i % 10
  let symbols_in_row := (g.getD row []).count sym
  let gg := if symbols_in_row == 1 then pyZip g else g
  let rc := if symbols_in_row == 1 then find_vertical (pyZip g) sym row col else (row, col)
  decide (rc.2 + size ≤ 10) && (((gg.getD rc.1 []).drop rc.2).take size == List.replicate size sym)

/-- The set `set(symbol_to_ship.keys()) | set(Board.NO_ACTION)`. -/
def allowedStart : Finset Char := (ships.map (fun s => s.symbol)).toFinset ∪ {NO_ACTION}

/-- `Board.validate_starting_grid(grid)` as a boolean: `true` iff no
`ValueError` is raised.  The four checks run in source order (length, ship
counts, character set, per-ship placement). -/
def validate_starting_grid (grid : List Char) : Bool :=
  decide (grid.length = 100) &&
  ships.all (fun v => v.size == grid.count v.symbol) &&
  decide (grid.toFinset = allowedStart) &&
  ships.all (fun s => ship_placed_ok grid s.symbol s.size)

/-- `Board.__init__`: validate, then set `starting_grid = grid = starting_grid`;
`none` when construction raises and no `Board` is created. -/
def mk? (starting_grid : List Char) : Option Board :=
  if validate_starting_grid starting_grid then some ⟨starting_grid, starting_grid⟩ else none

/-- `Board.no_ships`: `set(self.grid) <= Board.ACTIONS | set(Board.NO_ACTION)`. -/
def no_ships (b : Board) : Bool :=
  decide (b.grid.toFinset ⊆ ACTIONS ∪ {NO_ACTION})

/-- `Board.remaining_ships`: `set(self.grid) & set(symbol_to_ship.keys())`. -/
def remaining_ships (b : Board) : Finset Char :=
  b.grid.toFinset ∩ (ships.map (fun s => s.symbol)).toFinset

/-- `Board.sunk_ships`: `set(symbol_to_ship.keys()) - self.remaining_ships()`. -/
def sunk_ships (b : Board) : Finset Char :=
  (ships.map (fun s => s.symbol)).toFinset \ b.remaining_ships

/-- `Board.enemy_view`: full grid when `no_ships()`, else each of the 100
cells shows its action marker or a space; `none` models an `IndexError`
when the grid is shorter than 100 characters. -/
def enemy_view (b : Board) : Option (List Char) :=
  if b.no_ships then some b.grid
  else (List.range 100).mapM
    (fun xy : Nat => (pyGetStr b.grid (xy : Int)).map (fun g => if g ∈ ACTIONS then g else ' '))

/-- `Board.can_shoot_at`: `self.grid[xy] == self.starting_grid[xy]` with
`xy = _to_1d(x, y)`; an out-of-range access is an `IndexError`. -/
def can_shoot_at (b : Board) (x y : Int) : Except Err Bool :=
  let xy := _to_1d x y
  match pyGetStr b.grid xy, pyGetStr b.starting_grid xy with
  | some g, some s => .ok (g == s)
  | _, _ => .error .indexError

/-- One cell of the sunk-rewrite comprehension
`self.grid[i] if self.starting_grid[i] != symbol else self.SUNK`
(the current grid is only read when the starting cell is not the symbol). -/
def sunkCell (start g1 : List Char) (c : Char) (i : Nat) : Option Char :=
  match pyGetStr start (i : Int) with
  | none => none
  | some s => if s ≠ c then pyGetStr g1 (i : Int) else some SUNK

/-- The sunk-rewrite join over `range(Board.N * Board.N)`; `none` models an
`IndexError` inside the comprehension (the join is evaluated before the
assignment, so on error the grid keeps its previous value). -/
def joinSunk (start g1 : List Char) (c : Char) : Option (List Char) :=
  (List.range 100).mapM (sunkCell start g1 c)

/-- `Board.shoot(x, y)`: returns the board state at method exit (also on a
raise, since Python keeps partial mutations) together with the result
string or the error. -/
def shoot (b : Board) (x y : Int) : Board × Except Err String :=
  match b.can_shoot_at x y with
  | .error e => (b, .error e)
  | .ok false => (b, .error (.alreadyActed x y))
  | .ok true =>
    let xy := _to_1d x y
    match pyGetStr b.grid xy with
    | none => (b, .error .indexError)
    | some c =>
      if c = NO_ACTION then
        ({ b with grid := pySplice b.grid xy MISS }, .ok "Miss")
      else
        let g1 := pySplice b.grid xy HIT
        let b1 : Board := { b with grid := g1 }
        if g1.contains c then
          match symbol_to_ship c with
          | some sh => (b1, .ok ("Hit " ++ sh.name))
          | none => (b1, .error .keyError)
        else
          match joinSunk b.starting_grid g1 c with
          | none => (b1, .error .indexError)
          | some g2 =>
            let b2 : Board := { b with grid := g2 }
            match symbol_to_ship c with
            | some sh => (b2, .ok ("Sunk " ++ sh.name))
            | none => (b2, .error .keyError)

end Board

/-- `Player` (plain `models.py`): name and board.  `pid` models Python
object identity, used by `Game.join`'s `self.current is player` check:
distinct objects carry distinct `pid`s. -/
structure Player where
  pid : Nat
  name : String
  board : Board
deriving DecidableEq

/-- `Game.State`. -/
inductive GState where
  | NEW
  | PLAYING
  | FINISHED
deriving DecidableEq

/-- Errors a `Game` method can raise.  `noPlayers` is
`ValueError("No players in game")`; `notYourTurn cur` is
`ValueError(f"It's '{cur}' turn")`; `badStateShoot st` is
`ValueError(f"Game is in state '{st}' - can't shoot.")`; `joinNotNew st` is
`ValueError(f"Can't join players when game is not in state NEW. State={st}")`;
`joinTwice` is `ValueError("Player can't join the same game twice.")`;
`attrNone` is the `AttributeError` from `self.other.board` when `other` is
`None`; `boardErr e` is the propagated `Board` exception. -/
inductive GErr where
  | noPlayers
  | notYourTurn (cur : String)
  | badStateShoot (st : GState)
  | joinNotNew (st : GState)
  | joinTwice
  | attrNone
  | boardErr (e : Board.Err)
deriving DecidableEq

/-- `Game` (plain `models.py`): `current`, `other`, `state`. -/
structure Game where
  current : Option Player
  other : Option Player
  state : GState
deriving DecidableEq

namespace Game

/-- `Game.__init__`. -/
def init : Game := ⟨none, none, .NEW⟩

/-- `Game.join(player)` of `models.py`. -/
def join (g : Game) (p : Player) : Game × Except GErr Unit :=
  if g.state ≠ .NEW then (g, .error (.joinNotNew g.state))
  else match g.current with
    | none => ({ g with current := some p }, .ok ())
    | some cur =>
      if cur.pid = p.pid then (g, .error .joinTwice)
      else ({ g with other := some p, state := .PLAYING }, .ok ())

/-- `Game.shoot(player_name, x, y)` of `models.py`: checks run in source
order (no players, turn, state), then the shot is delegated to
`self.other.board` and the turn/finished bookkeeping runs. -/
def shoot (g : Game) (player_name : String) (x y : Int) : Game × Except GErr String :=
  match g.current with
  | none => (g, .error .noPlayers)
  | some cur =>
    if cur.name ≠ player_name then (g, .error (.notYourTurn cur.name))
    else if g.state ≠ .PLAYING then (g, .error (.badStateShoot g.state))
    else match g.other with
      | none => (g, .error .attrNone)
      | some oth =>
        let br := oth.board.shoot x y
        let oth1 : Player := { oth with board := br.1 }
        match br.2 with
        | .error e => ({ g with other := some oth1 }, .error (.boardErr e))
        | .ok r =>
          if oth1.board.no_ships then
            ({ g with other := some oth1, state := .FINISHED }, .ok r)
          else
            ({ g with current := some oth1, other := some cur }, .ok r)

/-- `Game.winner`. -/
def winner (g : Game) : Option Player :=
  if g.state = .FINISHED then g.current else none

end Game

/-- `Player` of `app/api/models.py` (ORM row): `id` may be unset before the
first commit. -/
structure ApiPlayer where
  id : Option Int
  name : String
  board : Board
deriving DecidableEq

/-- `Game` of `app/api/models.py` (ORM row): player list ordered by id,
plus the `current_idx` column (nullable). -/
structure ApiGame where
  state : GState
  players : List ApiPlayer
  current_idx : Option Int
deriving DecidableEq

namespace ApiGame

/-- Python list indexing `players[i]` (negative indices from the back),
`none` when it raises. -/
def pyListGet (l : List ApiPlayer) (i : Int) : Option ApiPlayer :=
  if 0 ≤ i then l.get? i.toNat
  else if 0 ≤ i + l.length then l.get? (i + l.length).toNat
  else none

/-- `Game.current` property of `app/api/models.py`:
`self.players[self.current_idx] if len(self.players) else None`; `none`
also covers the `TypeError`/`IndexError` raising paths. -/
def current (g : ApiGame) : Option ApiPlayer :=
  if g.players.length ≠ 0 then
    match g.current_idx with
    | some i => pyListGet g.players i
    | none => none
  else none

/-- `Game.other` property of `app/api/models.py`:
`self.players[(self.current_idx + 1) % 2] if len(self.players) == 2 else None`
(Lean's `%` on `Int` agrees with Python's for the positive modulus 2). -/
def other (g : ApiGame) : Option ApiPlayer :=
  if g.players.length = 2 then
    match g.current_idx with
    | some i => pyListGet g.players ((i + 1) % 2)
    | none => none
  else none

/-- `Game.shoot` of `app/api/models.py`: here the state check runs before
the turn check.  The in-place mutation of the opponent `Player` row is
rendered as updating its slot `(current_idx + 1) % 2` in the player list. -/
def shoot (g : ApiGame) (player_name : String) (x y : Int) : ApiGame × Except GErr String :=
  if g.state ≠ .PLAYING then (g, .error (.badStateShoot g.state))
  else match g.current with
    | none => (g, .error .attrNone)
    | some cur =>
      if cur.name ≠ player_name then (g, .error (.notYourTurn cur.name))
      else match g.current_idx, g.other with
        | some i, some oth =>
          let br := oth.board.shoot x y
          let oth1 : ApiPlayer := { oth with board := br.1 }
          let g1 : ApiGame := { g with players := g.players.set ((i + 1) % 2).toNat oth1 }
          match br.2 with
          | .error e => (g1, .error (.boardErr e))
          | .ok r =>
            if oth1.board.no_ships then
              ({ g1 with state := .FINISHED }, .ok r)
            else
              ({ g1 with current_idx := some ((i + 1) % 2) }, .ok r)
        | _, _ => (g, .error .attrNone)

end ApiGame



/-! ### Spec-side predicates (from the claim texts, for refinement claims) -/

/-- Cell read used by the spec-side predicates: character at linear index
`p` (a total read; all uses keep `p` below the grid length). -/
def cell (g : List Char) (p : Nat) : Char := g.getD p ' '

/-- Spec: all occurrences of `sym` form one contiguous horizontal run of
length `n`: there are a row `r` and a start column `c` with `c + n ≤ 10`
such that the cells holding `sym` are exactly the cells of row `r` whose
column lies in `[c, c + n)`. -/
def SpecHoriz (g : List Char) (sym : Char) (n : Nat) : Prop :=
  ∃ r c, r < 10 ∧ c + n ≤ 10 ∧
    ∀ p, p < 100 → (cell g p = sym ↔ (p / 10 = r ∧ c ≤ p % 10 ∧ p % 10 < c + n))

/-- Spec: all occurrences of `sym` form one contiguous vertical run of
length `n` in column `c` starting at row `r`. -/
def SpecVert (g : List Char) (sym : Char) (n : Nat) : Prop :=
  ∃ c r, c < 10 ∧ r + n ≤ 10 ∧
    ∀ p, p < 100 → (cell g p = sym ↔ (p % 10 = c ∧ r ≤ p / 10 ∧ p / 10 < r + n))

/-- The four starting-grid conditions exactly as the claim states them:
length 100; the count of each catalog symbol equals its declared length;
the set of distinct characters is exactly the five symbols plus the dot;
and each ship symbol forms one straight contiguous horizontal or vertical
run of the declared length. -/
def SpecValidGrid (g : List Char) : Prop :=
  g.length = 100 ∧
  (g.count 'C' = 5 ∧ g.count 'B' = 4 ∧ g.count 'R' = 3 ∧ g.count 'S' = 3 ∧
    g.count 'D' = 2) ∧
  g.toFinset = ({'C', 'B', 'R', 'S', 'D', '.'} : Finset Char) ∧
  ((SpecHoriz g 'C' 5 ∨ SpecVert g 'C' 5) ∧ (SpecHoriz g 'B' 4 ∨ SpecVert g 'B' 4) ∧
   (SpecHoriz g 'R' 3 ∨ SpecVert g 'R' 3) ∧ (SpecHoriz g 'S' 3 ∨ SpecVert g 'S' 3) ∧
   (SpecHoriz g 'D' 2 ∨ SpecVert g 'D' 2))

/-! ### List infrastructure lemmas -/

theorem getD_eq_getElem {α} (l : List α) (i : Nat) (d : α) (h : i < l.length) :
    l.getD i d = l[i] := by
  simp [List.getD_eq_getElem?_getD, List.getElem?_eq_getElem h]

theorem get?_eq_some_getD {α} (l : List α) (n : Nat) (d : α) (h : n < l.length) :
    l.get? n = some (l.getD n d) := by
  rw [List.get?_eq_getElem?, List.getElem?_eq_getElem h, getD_eq_getElem l n d h]

theorem getD_map_range {α} (n : Nat) (f : Nat → α) (r : Nat) (d : α) (h : r < n) :
    ((List.range n).map f).getD r d = f r := by
  rw [getD_eq_getElem _ _ _ (by simpa using h)]
  simp

theorem pyGetStr_nonneg (l : List Char) (i : Int) (h0 : 0 ≤ i) (h : i.toNat < l.length) :
    pyGetStr l i = some (l.getD i.toNat ' ') := by
  simp only [pyGetStr, if_pos h0]
  exact get?_eq_some_getD l i.toNat ' ' h

theorem pyGetStr_neg (l : List Char) (i : Int) (h0 : i < 0) (h : 0 ≤ i + l.length) :
    pyGetStr l i = some (l.getD (i + l.length).toNat ' ') := by
  have hni : ¬ (0 ≤ i) := by omega
  rw [pyGetStr, if_neg hni, if_pos h]
  refine get?_eq_some_getD l _ ' ' ?_
  omega

theorem pySplice_eq_set (l : List Char) (xy : Int) (ch : Char)
    (h0 : 0 ≤ xy) (h : xy.toNat < l.length) :
    pySplice l xy ch = l.set xy.toNat ch := by
  have hn1 : ¬ (xy < 0) := by omega
  have hn2 : ¬ (xy + 1 < 0) := by omega
  have h1 : pyIdxClamp l.length xy = xy.toNat := by
    rw [pyIdxClamp, if_neg hn1]
    omega
  have h2 : pyIdxClamp l.length (xy + 1) = xy.toNat + 1 := by
    rw [pyIdxClamp, if_neg hn2]
    omega
  rw [pySplice, h1, h2, List.set_eq_take_append_cons_drop, if_pos h]
  simp

theorem mapM_option_eq_map {α β} (l : List α) (f : α → Option β) (g : α → β)
    (h : ∀ a ∈ l, f a = some (g a)) : l.mapM f = some (l.map g) := by
  induction l with
  | nil => rfl
  | cons x xs ih =>
    rw [List.mapM_cons, h x (by simp), List.map_cons,
      ih (fun a ha => h a (by simp [ha]))]
    rfl

/-! ### `Board.shoot` branch characterizations -/

namespace Board

theorem can_shoot_at_in_range (b : Board) (x y : Int) (h0 : 0 ≤ _to_1d x y)
    (h1 : (_to_1d x y).toNat < b.grid.length)
    (h2 : (_to_1d x y).toNat < b.starting_grid.length) :
    b.can_shoot_at x y =
      .ok (cell b.grid (_to_1d x y).toNat == cell b.starting_grid (_to_1d x y).toNat) := by
  rw [can_shoot_at, pyGetStr_nonneg _ _ h0 h1, pyGetStr_nonneg _ _ h0 h2]
  rfl

theorem shoot_already (b : Board) (x y : Int) (h : b.can_shoot_at x y = .ok false) :
    b.shoot x y = (b, .error (.alreadyActed x y)) := by
  simp only [shoot, h]

theorem shoot_of_error (b : Board) (x y : Int) (e : Err)
    (h : b.can_shoot_at x y = .error e) : b.shoot x y = (b, .error e) := by
  simp only [shoot, h]

theorem shoot_miss (b : Board) (x y : Int) (h0 : 0 ≤ _to_1d x y)
    (h1 : (_to_1d x y).toNat < b.grid.length)
    (hcan : b.can_shoot_at x y = .ok true)
    (hdot : cell b.grid (_to_1d x y).toNat = NO_ACTION) :
    b.shoot x y = ({ b with grid := b.grid.set (_to_1d x y).toNat MISS }, .ok "Miss") := by
  rw [shoot, hcan]
  simp only [pyGetStr_nonneg _ _ h0 h1]
  rw [show b.grid.getD (_to_1d x y).toNat ' ' = cell b.grid (_to_1d x y).toNat from rfl, hdot]
  simp only [pySplice_eq_set _ _ _ h0 h1]
  simp

theorem shoot_hit (b : Board) (x y : Int) (sh : Ship) (h0 : 0 ≤ _to_1d x y)
    (h1 : (_to_1d x y).toNat < b.grid.length)
    (hcan : b.can_shoot_at x y = .ok true)
    (hsym : cell b.grid (_to_1d x y).toNat = sh.symbol)
    (hns : sh.symbol ≠ NO_ACTION)
    (hlk : symbol_to_ship sh.symbol = some sh)
    (hmem : (b.grid.set (_to_1d x y).toNat HIT).contains sh.symbol = true) :
    b.shoot x y =
      ({ b with grid := b.grid.set (_to_1d x y).toNat HIT }, .ok ("Hit " ++ sh.name)) := by
  rw [shoot, hcan]
  simp only [pyGetStr_nonneg _ _ h0 h1]
  rw [show b.grid.getD (_to_1d x y).toNat ' ' = cell b.grid (_to_1d x y).toNat from rfl, hsym]
  rw [if_neg hns]
  simp only [pySplice_eq_set _ _ _ h0 h1, hmem, hlk]
  simp

theorem shoot_sunk (b : Board) (x y : Int) (sh : Ship) (h0 : 0 ≤ _to_1d x y)
    (h1 : (_to_1d x y).toNat < b.grid.length) (hsg : b.starting_grid.length = 100)
    (hg : b.grid.length = 100)
    (hcan : b.can_shoot_at x y = .ok true)
    (hsym : cell b.grid (_to_1d x y).toNat = sh.symbol)
    (hns : sh.symbol ≠ NO_ACTION)
    (hlk : symbol_to_ship sh.symbol = some sh)
    (hmem : (b.grid.set (_to_1d x y).toNat HIT).contains sh.symbol = false) :
    b.shoot x y =
      ({ b with grid := (List.range 100).map (fun i =>
          if cell b.starting_grid i ≠ sh.symbol
          then cell (b.grid.set (_to_1d x y).toNat HIT) i else SUNK) },
        .ok ("Sunk " ++ sh.name)) := by
  have hjoin : joinSunk b.starting_grid (b.grid.set (_to_1d x y).toNat HIT) sh.symbol =
      some ((List.range 100).map (fun i =>
        if cell b.starting_grid i ≠ sh.symbol
        then cell (b.grid.set (_to_1d x y).toNat HIT) i else SUNK)) := by
    refine mapM_option_eq_map _ _ _ (fun i hi => ?_)
    have hi100 : i < 100 := by simpa using hi
    have hs : pyGetStr b.starting_grid (i : Int) = some (cell b.starting_grid i) := by
      refine pyGetStr_nonneg _ _ (by omega) ?_
      simp [hsg]
      omega
    have hred : sunkCell b.starting_grid (b.grid.set (_to_1d x y).toNat HIT) sh.symbol i =
        if cell b.starting_grid i ≠ sh.symbol
        then pyGetStr (b.grid.set (_to_1d x y).toNat HIT) (i : Int) else some SUNK := by
      rw [sunkCell, hs]
    rw [hred]
    by_cases hc : cell b.starting_grid i ≠ sh.symbol
    · rw [if_pos hc, if_pos hc]
      refine pyGetStr_nonneg _ _ (by omega) ?_
      simp [hg]
      omega
    · rw [if_neg hc, if_neg hc]
  rw [shoot, hcan]
  simp only [pyGetStr_nonneg _ _ h0 h1]
  rw [show b.grid.getD (_to_1d x y).toNat ' ' = cell b.grid (_to_1d x y).toNat from rfl, hsym]
  rw [if_neg hns]
  simp only [pySplice_eq_set _ _ _ h0 h1, hmem, hjoin, hlk]
  simp

end Board

/-! ### Cell-level list lemmas -/

theorem cell_set_self (g : List Char) (i : Nat) (ch : Char) (h : i < g.length) :
    cell (g.set i ch) i = ch := by
  rw [cell, getD_eq_getElem _ _ _ (by simpa using h)]
  simp [List.getElem_set, h]

theorem cell_set_ne (g : List Char) (i j : Nat) (ch : Char) (h : j ≠ i) :
    cell (g.set i ch) j = cell g j := by
  by_cases hj : j < g.length
  · rw [cell, getD_eq_getElem _ _ _ (by simpa using hj), cell, getD_eq_getElem _ _ _ hj]
    simp only [List.getElem_set]
    rw [if_neg (fun h2 => h h2.symm)]
  · have hj2 : ¬ j < (g.set i ch).length := by simpa using hj
    rw [cell, cell, List.getD_eq_getElem?_getD, List.getD_eq_getElem?_getD,
      List.getElem?_eq_none (by omega), List.getElem?_eq_none (by omega)]

theorem cell_mem (g : List Char) (i : Nat) (h : i < g.length) : cell g i ∈ g := by
  rw [cell, getD_eq_getElem _ _ _ h]
  exact List.getElem_mem h

theorem mem_iff_cell (g : List Char) (a : Char) :
    a ∈ g ↔ ∃ i, i < g.length ∧ cell g i = a := by
  constructor
  · intro h
    rcases List.mem_iff_getElem.mp h with ⟨i, hi, he⟩
    exact ⟨i, hi, by rw [cell, getD_eq_getElem _ _ _ hi, he]⟩
  · rintro ⟨i, hi, he⟩
    rw [← he]
    exact cell_mem g i hi

theorem contains_iff (g : List Char) (a : Char) : g.contains a = true ↔ a ∈ g :=
  List.elem_iff

/-! ### Validation facts and the board invariant -/

namespace Board

theorem validate_parts (g : List Char) (h : validate_starting_grid g = true) :
    g.length = 100 ∧ (∀ s ∈ ships, g.count s.symbol = s.size) ∧
    g.toFinset = allowedStart ∧ (∀ s ∈ ships, ship_placed_ok g s.symbol s.size = true) := by
  rw [validate_starting_grid, Bool.and_eq_true, Bool.and_eq_true, Bool.and_eq_true] at h
  obtain ⟨⟨⟨h1, h2⟩, h3⟩, h4⟩ := h
  refine ⟨by simpa using h1, ?_, by simpa using h3, ?_⟩
  · intro s hs
    have hb := List.all_eq_true.mp h2 s hs
    have hb2 : s.size = g.count s.symbol := by simpa using hb
    exact hb2.symm
  · intro s hs
    exact List.all_eq_true.mp h4 s hs

/-- Per-ship catalog facts used throughout: lookup round-trip, size bounds,
and the symbol being neither an action marker nor the empty marker. -/
theorem ship_facts : ∀ sh ∈ ships, symbol_to_ship sh.symbol = some sh ∧
    2 ≤ sh.size ∧ sh.size ≤ 10 ∧ sh.symbol ≠ NO_ACTION ∧ sh.symbol ∉ ACTIONS := by
  decide

theorem mem_allowedStart_iff (c : Char) :
    c ∈ allowedStart ↔ c = 'C' ∨ c = 'B' ∨ c = 'R' ∨ c = 'S' ∨ c = 'D' ∨ c = '.' := by
  constructor
  · intro h
    revert h
    simp [allowedStart, ships]
    tauto
  · intro h
    rcases h with h | h | h | h | h | h <;> subst h <;> decide

theorem allowed_symbol (c : Char) (h : c ∈ allowedStart) (hne : c ≠ NO_ACTION) :
    ∃ sh ∈ ships, sh.symbol = c := by
  rcases (mem_allowedStart_iff c).mp h with h1 | h1 | h1 | h1 | h1 | h1 <;> subst h1
  · exact ⟨⟨"Carrier", 'C', 5⟩, by decide, rfl⟩
  · exact ⟨⟨"Battleship", 'B', 4⟩, by decide, rfl⟩
  · exact ⟨⟨"Cruiser", 'R', 3⟩, by decide, rfl⟩
  · exact ⟨⟨"Submarine", 'S', 3⟩, by decide, rfl⟩
  · exact ⟨⟨"Destroyer", 'D', 2⟩, by decide, rfl⟩
  · exact absurd rfl hne

/-- The state invariant of a board: both grids have length 100 and every
cell is either untouched (equal to the starting cell) or an action marker. -/
def Inv (b : Board) : Prop :=
  b.starting_grid.length = 100 ∧ b.grid.length = 100 ∧
  ∀ i, i < 100 → cell b.grid i = cell b.starting_grid i ∨ cell b.grid i ∈ ACTIONS

theorem start_cell_allowed (b : Board)
    (hvalid : validate_starting_grid b.starting_grid = true) (i : Nat) (hi : i < 100) :
    cell b.starting_grid i ∈ allowedStart := by
  obtain ⟨hlen, -, hset, -⟩ := validate_parts _ hvalid
  rw [← hset]
  exact List.mem_toFinset.mpr (cell_mem _ _ (by omega))

end Board

namespace Board

theorem shoot_starting_grid (b : Board) (x y : Int) :
    (b.shoot x y).1.starting_grid = b.starting_grid := by
  rw [shoot]
  split
  · rfl
  · rfl
  · dsimp only
    split
    · rfl
    · split
      · rfl
      · split
        · split <;> rfl
        · split
          · rfl
          · split <;> rfl

/-- Arithmetic facts about the linear index of an in-range cell. -/
theorem to_1d_range (x y : Int) (hx : 0 ≤ x) (hx10 : x < 10) (hy : 0 ≤ y) (hy10 : y < 10) :
    0 ≤ _to_1d x y ∧ (_to_1d x y).toNat < 100 := by
  rw [_to_1d]
  omega

/-- A successful in-range shot preserves the board invariant, keeps the
starting grid, and never un-acts an acted cell.  (Failed shots return the
board unchanged, so the conclusion holds for them trivially as well.) -/
theorem shoot_preserves (b : Board) (x y : Int)
    (hvalid : validate_starting_grid b.starting_grid = true) (hinv : Inv b)
    (hx : 0 ≤ x) (hx10 : x < 10) (hy : 0 ≤ y) (hy10 : y < 10) :
    Inv (b.shoot x y).1 ∧
    (∀ i, i < 100 → cell b.grid i ≠ cell b.starting_grid i →
      cell (b.shoot x y).1.grid i ≠ cell b.starting_grid i) := by
  obtain ⟨hsg, hg, hcells⟩ := hinv
  obtain ⟨hxy0, hxyN⟩ := to_1d_range x y hx hx10 hy hy10
  set xyN := (_to_1d x y).toNat with hxyN_def
  have hcan := can_shoot_at_in_range b x y hxy0 (by omega) (by omega)
  by_cases hbeq : cell b.grid xyN = cell b.starting_grid xyN
  case neg =>
    -- cell already acted upon: the shot fails and the board is unchanged
    rw [shoot_already b x y (by rw [hcan]; simp [hbeq])]
    exact ⟨⟨hsg, hg, hcells⟩, fun i _ h2 => h2⟩
  case pos =>
    have hcan2 : b.can_shoot_at x y = .ok true := by rw [hcan]; simp [hbeq]
    have hstart_allowed := start_cell_allowed b hvalid xyN hxyN
    by_cases hdot : cell b.grid xyN = NO_ACTION
    · -- Miss branch
      rw [shoot_miss b x y hxy0 (by omega) hcan2 hdot]
      refine ⟨⟨hsg, by simpa using hg, fun i hi => ?_⟩, fun i hi h2 => ?_⟩
      · by_cases hieq : i = xyN
        · subst hieq
          right
          rw [cell_set_self _ _ _ (by omega)]
          decide
        · rw [cell_set_ne _ _ _ _ hieq]
          exact hcells i hi
      · by_cases hieq : i = xyN
        · subst hieq
          exact absurd hbeq h2
        · rw [cell_set_ne _ _ _ _ hieq]
          exact h2
    · -- ship-symbol branch
      have hsym_mem : cell b.grid xyN ∈ allowedStart := by
        rw [hbeq]
        exact hstart_allowed
      obtain ⟨sh, hsh_mem, hsh_sym⟩ := allowed_symbol _ hsym_mem hdot
      obtain ⟨hlk, hsize2, hsize10, hsh_nodot, hsh_noact⟩ := ship_facts sh hsh_mem
      by_cases hcont : (b.grid.set xyN HIT).contains sh.symbol = true
      · -- Hit branch: one cell marked HIT
        rw [shoot_hit b x y sh hxy0 (by omega) hcan2 hsh_sym.symm hsh_nodot hlk hcont]
        refine ⟨⟨hsg, by simpa using hg, fun i hi => ?_⟩, fun i hi h2 => ?_⟩
        · by_cases hieq : i = xyN
          · subst hieq
            right
            rw [cell_set_self _ _ _ (by omega)]
            decide
          · rw [cell_set_ne _ _ _ _ hieq]
            exact hcells i hi
        · by_cases hieq : i = xyN
          · subst hieq
            exact absurd hbeq h2
          · rw [cell_set_ne _ _ _ _ hieq]
            exact h2
      · -- Sunk branch: whole-ship rewrite
        have hcont2 : (b.grid.set xyN HIT).contains sh.symbol = false := by
          simpa using hcont
        rw [shoot_sunk b x y sh hxy0 (by omega) hsg hg hcan2 hsh_sym.symm hsh_nodot hlk hcont2]
        have hcell2 : ∀ i, i < 100 →
            cell ((List.range 100).map (fun i =>
              if cell b.starting_grid i ≠ sh.symbol
              then cell (b.grid.set xyN HIT) i else SUNK)) i =
            if cell b.starting_grid i ≠ sh.symbol
            then cell (b.grid.set xyN HIT) i else SUNK := by
          intro i hi
          rw [cell, getD_map_range _ _ _ _ hi]
        refine ⟨⟨hsg, by simp, fun i hi => ?_⟩, fun i hi h2 => ?_⟩
        · rw [hcell2 i hi]
          by_cases hstart_i : cell b.starting_grid i ≠ sh.symbol
          · rw [if_pos hstart_i]
            by_cases hieq : i = xyN
            · subst hieq
              right
              rw [cell_set_self _ _ _ (by omega)]
              decide
            · rw [cell_set_ne _ _ _ _ hieq]
              exact hcells i hi
          · rw [if_neg hstart_i]
            right
            decide
        · rw [hcell2 i hi]
          by_cases hstart_i : cell b.starting_grid i ≠ sh.symbol
          · rw [if_pos hstart_i]
            by_cases hieq : i = xyN
            · subst hieq
              exact absurd hbeq h2
            · rw [cell_set_ne _ _ _ _ hieq]
              exact h2
          · rw [if_neg hstart_i]
            push_neg at hstart_i
            rw [hstart_i]
            intro hx_eq
            exact hsh_noact (by rw [← hx_eq]; decide)

end Board

namespace Board

/-- Membership of a non-HIT character in the grid after marking one cell
HIT: it appears at some other position. -/
theorem contains_set_hit_iff (g : List Char) (xyN : Nat) (c : Char) (hlen : g.length = 100)
    (hxy : xyN < 100) (hc : c ≠ HIT) :
    (g.set xyN HIT).contains c = true ↔ ∃ j, j < 100 ∧ j ≠ xyN ∧ cell g j = c := by
  rw [contains_iff, mem_iff_cell]
  constructor
  · rintro ⟨j, hj, he⟩
    have hj100 : j < 100 := by
      rw [List.length_set, hlen] at hj
      exact hj
    have hjne : j ≠ xyN := by
      intro hEq
      subst hEq
      rw [cell_set_self _ _ _ (by omega)] at he
      exact hc he.symm
    rw [cell_set_ne _ _ _ _ hjne] at he
    exact ⟨j, hj100, hjne, he⟩
  · rintro ⟨j, hj, hjne, he⟩
    refine ⟨j, by rw [List.length_set, hlen]; exact hj, ?_⟩
    rw [cell_set_ne _ _ _ _ hjne]
    exact he

/-- When `can_shoot_at` returns a value, both string reads succeeded and
returned characters whose equality is that value. -/
theorem can_shoot_at_ok_reads (b : Board) (x y : Int) (v : Bool)
    (h : b.can_shoot_at x y = .ok v) :
    ∃ cg cs, pyGetStr b.grid (_to_1d x y) = some cg ∧
      pyGetStr b.starting_grid (_to_1d x y) = some cs ∧ v = (cg == cs) := by
  rw [can_shoot_at] at h
  rcases hg : pyGetStr b.grid (_to_1d x y) with - | cg <;>
    rcases hs : pyGetStr b.starting_grid (_to_1d x y) with - | cs <;>
      rw [hg, hs] at h
  · exact absurd h (by simp)
  · exact absurd h (by simp)
  · exact absurd h (by simp)
  · exact ⟨cg, cs, rfl, rfl, by injection h with h2; exact h2.symm⟩

/-- A successful single-char read hits an in-range position: its value is
a `cell` of the string at an index below the length. -/
theorem pyGetStr_some_cell (l : List Char) (i : Int) (c : Char)
    (h : pyGetStr l i = some c) : ∃ j, j < l.length ∧ cell l j = c := by
  rw [pyGetStr] at h
  by_cases h0 : 0 ≤ i
  · rw [if_pos h0] at h
    have hlt : i.toNat < l.length := by
      by_contra hge
      rw [List.get?_eq_getElem?, List.getElem?_eq_none (by omega)] at h
      exact absurd h (by simp)
    rw [get?_eq_some_getD l i.toNat ' ' hlt] at h
    exact ⟨i.toNat, hlt, by injection h⟩
  · rw [if_neg h0] at h
    by_cases h1 : 0 ≤ i + l.length
    · rw [if_pos h1] at h
      have hlt : (i + l.length).toNat < l.length := by omega
      rw [get?_eq_some_getD l _ ' ' hlt] at h
      exact ⟨(i + l.length).toNat, hlt, by injection h⟩
    · rw [if_neg h1] at h
      exact absurd h (by simp)

/-- Python splicing never shortens the string (it can lengthen it when the
index is `-1`, where `grid[0:]` duplicates the whole string). -/
theorem pySplice_length_ge (l : List Char) (xy : Int) (ch : Char) :
    l.length ≤ (pySplice l xy ch).length := by
  rw [pySplice]
  simp only [List.length_append, List.length_take, List.length_drop, List.length_cons,
    List.length_singleton, pyIdxClamp]
  split <;> split <;> omega

end Board


/-- Reachability of a board state by a sequence of (possibly failing) shots
at in-range coordinates; coordinates in `[0, 9]` are the interface contract
of the surrounding service layer. -/
inductive Reach : Board → Board → Prop
  | refl (b : Board) : Reach b b
  | step (b b' : Board) (x y : Int) (hx : 0 ≤ x) (hx10 : x < 10)
      (hy : 0 ≤ y) (hy10 : y < 10) (h : Reach b b') : Reach b (b'.shoot x y).1

theorem Reach.trans {a b c : Board} (h1 : Reach a b) (h2 : Reach b c) : Reach a c := by
  induction h2 with
  | refl => exact h1
  | step b' x y hx hx10 hy hy10 h ih => exact Reach.step _ _ x y hx hx10 hy hy10 ih

/-- Everything that reachability preserves: the starting grid, its
validity, and the cell invariant. -/
theorem reach_facts (g0 : List Char) (b0 b : Board)
    (h0 : Board.mk? g0 = some b0) (hr : Reach b0 b) :
    b.starting_grid = g0 ∧ Board.validate_starting_grid b.starting_grid = true ∧
      Board.Inv b := by
  have hval0 : Board.validate_starting_grid g0 = true ∧ b0 = ⟨g0, g0⟩ := by
    rw [Board.mk?] at h0
    by_cases hv : Board.validate_starting_grid g0 = true
    · rw [if_pos hv] at h0
      exact ⟨hv, (Option.some.injEq _ _ ▸ h0).symm⟩
    · rw [if_neg hv] at h0
      exact absurd h0 (by simp)
  obtain ⟨hval, hb0⟩ := hval0
  induction hr with
  | refl =>
    subst hb0
    have hlen : g0.length = 100 := (Board.validate_parts g0 hval).1
    exact ⟨rfl, hval, hlen, hlen, fun i hi => Or.inl rfl⟩
  | step b'' x y hx hx10 hy hy10 h ih =>
    obtain ⟨hsg, hv, hinv⟩ := ih
    obtain ⟨hinv2, -⟩ := Board.shoot_preserves b'' x y hv hinv hx hx10 hy hy10
    refine ⟨(Board.shoot_starting_grid b'' x y).trans hsg, ?_, hinv2⟩
    rw [Board.shoot_starting_grid b'' x y]
    exact hv


/-- Reachability preserves the starting grid, the invariant, and actedness
of every cell. -/
theorem reach_preserves (b b2 : Board) (hr : Reach b b2)
    (hv : Board.validate_starting_grid b.starting_grid = true) (hinv : Board.Inv b) :
    b2.starting_grid = b.starting_grid ∧ Board.Inv b2 ∧
    ∀ i, i < 100 → cell b.grid i ≠ cell b.starting_grid i →
      cell b2.grid i ≠ cell b.starting_grid i := by
  induction hr with
  | refl => exact ⟨rfl, hinv, fun i hi h => h⟩
  | step b'' x y hx hx10 hy hy10 h ih =>
    obtain ⟨hsg, hinv2, hacted⟩ := ih
    have hv2 : Board.validate_starting_grid b''.starting_grid = true := by
      rw [hsg]
      exact hv
    obtain ⟨hinv3, hacted2⟩ := Board.shoot_preserves b'' x y hv2 hinv2 hx hx10 hy hy10
    refine ⟨(Board.shoot_starting_grid b'' x y).trans hsg, hinv3, fun i hi hne => ?_⟩
    have := hacted2 i hi (by rw [hsg]; exact hacted i hi hne)
    rw [hsg] at this
    exact this

namespace Board

theorem joinSunk_eq (start g1 : List Char) (c : Char)
    (hs : start.length = 100) (hg1 : 100 ≤ g1.length) :
    joinSunk start g1 c = some ((List.range 100).map (fun i =>
      if cell start i ≠ c then cell g1 i else SUNK)) := by
  refine mapM_option_eq_map _ _ _ (fun i hi => ?_)
  have hi100 : i < 100 := by simpa using hi
  have hsread : pyGetStr start (i : Int) = some (cell start i) := by
    refine pyGetStr_nonneg _ _ (by omega) ?_
    omega
  have hred : sunkCell start g1 c i =
      if cell start i ≠ c then pyGetStr g1 (i : Int) else some SUNK := by
    rw [sunkCell, hsread]
  rw [hred]
  by_cases hc : cell start i ≠ c
  · rw [if_pos hc, if_pos hc]
    refine pyGetStr_nonneg _ _ (by omega) ?_
    omega
  · rw [if_neg hc, if_neg hc]

/-- When the shot is allowed (`can_shoot_at` true) on a board with a valid
starting grid, `shoot` always returns a result string: the `KeyError` and
`IndexError` paths of the hit/sunk branches are unreachable. -/
theorem shoot_ok_of_can (b : Board) (x y : Int)
    (hvalid : validate_starting_grid b.starting_grid = true)
    (hg : b.grid.length = 100)
    (hcan : b.can_shoot_at x y = .ok true) :
    ∃ r, (b.shoot x y).2 = .ok r := by
  obtain ⟨hsg, -, -, -⟩ := validate_parts _ hvalid
  obtain ⟨cg, cs, hread_g, hread_s, hv⟩ := can_shoot_at_ok_reads b x y true hcan
  have hcgcs : cg = cs := by
    have := hv.symm
    simpa using this
  obtain ⟨j, hj, hcell⟩ := pyGetStr_some_cell _ _ _ hread_s
  have hcs_allowed : cs ∈ allowedStart := by
    rw [← hcell]
    exact start_cell_allowed b hvalid j (by omega)
  rw [shoot, hcan]
  dsimp only
  rw [hread_g]
  dsimp only
  by_cases hdot : cg = NO_ACTION
  · rw [if_pos hdot]
    exact ⟨"Miss", rfl⟩
  · rw [if_neg hdot]
    obtain ⟨sh, hsh_mem, hsh_sym⟩ := allowed_symbol cs hcs_allowed (by rw [← hcgcs]; exact hdot)
    obtain ⟨hlk, -, -, -, -⟩ := ship_facts sh hsh_mem
    have hlk2 : symbol_to_ship cg = some sh := by
      rw [hcgcs, ← hsh_sym]
      exact hlk
    by_cases hcont : (pySplice b.grid (_to_1d x y) HIT).contains cg = true
    · rw [if_pos hcont, hlk2]
      exact ⟨"Hit " ++ sh.name, rfl⟩
    · rw [if_neg hcont]
      rw [joinSunk_eq b.starting_grid _ cg hsg
        (le_trans (by omega) (pySplice_length_ge b.grid (_to_1d x y) HIT))]
      rw [hlk2]
      exact ⟨"Sunk " ++ sh.name, rfl⟩

/-- A `Board.shoot` that raises leaves the grid unchanged, provided the
starting grid is valid and the grid has length 100 (the reachable states). -/
theorem shoot_error_unchanged (b : Board) (x y : Int) (e : Err)
    (hvalid : validate_starting_grid b.starting_grid = true)
    (hg : b.grid.length = 100)
    (herr : (b.shoot x y).2 = .error e) : (b.shoot x y).1 = b := by
  rcases hcan : b.can_shoot_at x y with e2 | v
  · rw [shoot_of_error b x y e2 hcan]
  · rcases v with - | -
    · rw [shoot_already b x y hcan]
    · obtain ⟨r, hr⟩ := shoot_ok_of_can b x y hvalid hg hcan
      rw [hr] at herr
      exact absurd herr (by simp)

end Board

/-! ### Concrete boards for witnesses -/

/-- A standard fleet used by witnesses: each ship horizontal in its own row. -/
def stdFleet : List Char :=
  String.toList ("CCCCC....." ++ "BBBB......" ++ "RRR......." ++ "SSS......." ++
    "DD........" ++ ".........." ++ ".........." ++ ".........." ++ ".........." ++
    "..........")

/-- The freshly constructed standard board. -/
def stdBoard : Board := ⟨stdFleet, stdFleet⟩

/-! ### Claims -/

/-- C2: on a board with 100-character grids and an in-range cell `(x, y)`
that has not been acted upon, `shoot` marks an empty cell MISS and returns
`Miss`; marks a ship cell HIT and returns `Hit {name}` when the symbol
still appears elsewhere, and otherwise rewrites every cell whose starting
value is the symbol to SUNK (including the cell just hit) and returns
`Sunk {name}`; a cell already acted upon makes `shoot` fail with the
already-acted error. -/
theorem claim_C2_shoot_results (b : Board) (x y : Int)
    (hsg : b.starting_grid.length = 100) (hg : b.grid.length = 100)
    (hx : 0 ≤ x) (hx10 : x < 10) (hy : 0 ≤ y) (hy10 : y < 10) :
    (b.can_shoot_at x y = .ok false →
      b.shoot x y = (b, .error (.alreadyActed x y))) ∧
    (b.can_shoot_at x y = .ok true →
      (cell b.grid (Board._to_1d x y).toNat = Board.NO_ACTION →
        b.shoot x y =
          ({ b with grid := b.grid.set (Board._to_1d x y).toNat Board.MISS }, .ok "Miss")) ∧
      (∀ sh ∈ ships, cell b.grid (Board._to_1d x y).toNat = sh.symbol →
        ((∃ j, j < 100 ∧ j ≠ (Board._to_1d x y).toNat ∧ cell b.grid j = sh.symbol) →
          b.shoot x y =
            ({ b with grid := b.grid.set (Board._to_1d x y).toNat Board.HIT },
              .ok ("Hit " ++ sh.name))) ∧
        ((¬ ∃ j, j < 100 ∧ j ≠ (Board._to_1d x y).toNat ∧ cell b.grid j = sh.symbol) →
          (b.shoot x y).2 = .ok ("Sunk " ++ sh.name) ∧
          (b.shoot x y).1.starting_grid = b.starting_grid ∧
          (b.shoot x y).1.grid.length = 100 ∧
          ∀ i, i < 100 → cell (b.shoot x y).1.grid i =
            if cell b.starting_grid i = sh.symbol then Board.SUNK
            else cell (b.grid.set (Board._to_1d x y).toNat Board.HIT) i))) := by
  obtain ⟨hxy0, hxyN⟩ := Board.to_1d_range x y hx hx10 hy hy10
  refine ⟨Board.shoot_already b x y, fun hcan => ⟨fun hdot => ?_, fun sh hsh hsym => ?_⟩⟩
  · exact Board.shoot_miss b x y hxy0 (by omega) hcan hdot
  · obtain ⟨hlk, hsize2, hsize10, hsh_nodot, hsh_noact⟩ := Board.ship_facts sh hsh
    have hne_hit : sh.symbol ≠ Board.HIT := by
      intro hEq
      exact hsh_noact (by rw [hEq]; decide)
    refine ⟨fun hex => ?_, fun hnex => ?_⟩
    · have hcont := (Board.contains_set_hit_iff b.grid (Board._to_1d x y).toNat sh.symbol
        hg (by omega) hne_hit).mpr hex
      exact Board.shoot_hit b x y sh hxy0 (by omega) hcan hsym hsh_nodot hlk hcont
    · have hcont2 : (b.grid.set (Board._to_1d x y).toNat Board.HIT).contains sh.symbol
          = false := by
        cases hcb : (b.grid.set (Board._to_1d x y).toNat Board.HIT).contains sh.symbol
        · rfl
        · exact absurd ((Board.contains_set_hit_iff b.grid (Board._to_1d x y).toNat
            sh.symbol hg (by omega) hne_hit).mp hcb) hnex
      rw [Board.shoot_sunk b x y sh hxy0 (by omega) hsg hg hcan hsym hsh_nodot hlk hcont2]
      refine ⟨rfl, rfl, by simp, fun i hi => ?_⟩
      rw [cell, getD_map_range _ _ _ _ hi]
      by_cases hci : cell b.starting_grid i = sh.symbol
      · rw [if_pos hci, if_neg (by simpa using hci)]
      · rw [if_neg hci, if_pos hci]

/-- C2 witness: shooting (0,0) on the standard board hits the Carrier. -/
theorem claim_C2_witness :
    (Board.shoot stdBoard 0 0).2 = .ok ("Hit " ++ "Carrier") := by
  have h := claim_C2_shoot_results stdBoard 0 0 (by decide) (by decide)
    (by decide) (by decide) (by decide) (by decide)
  have h2 := ((h.2 (by rfl)).2 ⟨"Carrier", 'C', 5⟩ (by decide) (by decide)).1
    ⟨1, by decide, by decide, by decide⟩
  rw [h2]


/-- C4: every cell of a board reachable from a valid construction is
either untouched (equal to its starting value) or one of the three action
markers, and once a cell differs from its starting value every later shot
targeting it fails with the already-acted error. -/
theorem claim_C4_cell_invariant (g0 : List Char) (b0 b : Board)
    (h0 : Board.mk? g0 = some b0) (hr : Reach b0 b) :
    (∀ i, i < 100 → cell b.grid i = cell b.starting_grid i ∨
      cell b.grid i ∈ Board.ACTIONS) ∧
    (∀ x y : Int, 0 ≤ x → x < 10 → 0 ≤ y → y < 10 →
      cell b.grid (Board._to_1d x y).toNat ≠ cell b.starting_grid (Board._to_1d x y).toNat →
      ∀ b2, Reach b b2 → (b2.shoot x y).2 = .error (.alreadyActed x y)) := by
  obtain ⟨hsg_eq, hval, hinv⟩ := reach_facts g0 b0 b h0 hr
  obtain ⟨hsg, hg, hcells⟩ := hinv
  refine ⟨hcells, fun x y hx hx10 hy hy10 hacted b2 hr2 => ?_⟩
  obtain ⟨hsg2_eq, hinv2, hacted2⟩ := reach_preserves b b2 hr2 hval ⟨hsg, hg, hcells⟩
  obtain ⟨hsg2, hg2, -⟩ := hinv2
  obtain ⟨hxy0, hxyN⟩ := Board.to_1d_range x y hx hx10 hy hy10
  have hne := hacted2 (Board._to_1d x y).toNat hxyN hacted
  have hcan : b2.can_shoot_at x y = .ok false := by
    rw [Board.can_shoot_at_in_range b2 x y hxy0 (by omega) (by omega)]
    have hne2 : cell b2.grid (Board._to_1d x y).toNat ≠
        cell b2.starting_grid (Board._to_1d x y).toNat := by
      rw [hsg2_eq]
      exact hne
    simp [hne2]
  rw [Board.shoot_already b2 x y hcan]

/-- C4 witness: on the standard board, after hitting (0,0) the cell is an
action marker and a second shot at (0,0) fails. -/
theorem claim_C4_witness :
    (cell (Board.shoot stdBoard 0 0).1.grid 0 = cell stdBoard.starting_grid 0 ∨
      cell (Board.shoot stdBoard 0 0).1.grid 0 ∈ Board.ACTIONS) ∧
    ((Board.shoot (Board.shoot stdBoard 0 0).1 0 0).2 =
      .error (.alreadyActed 0 0)) := by
  have hmk : Board.mk? stdFleet = some stdBoard := by rfl
  have hr : Reach stdBoard (Board.shoot stdBoard 0 0).1 :=
    Reach.step stdBoard stdBoard 0 0 (by decide) (by decide) (by decide) (by decide)
      (Reach.refl stdBoard)
  have h := claim_C4_cell_invariant stdFleet stdBoard (Board.shoot stdBoard 0 0).1 hmk hr
  refine ⟨?_, ?_⟩
  · have := h.1 0 (by decide)
    rw [Board.shoot_starting_grid stdBoard 0 0] at this
    exact this
  · exact h.2 0 0 (by decide) (by decide) (by decide) (by decide) (by decide)
      (Board.shoot stdBoard 0 0).1 (Reach.refl _)

/-- C7: `enemy_view` reveals the whole grid verbatim once no ships remain;
otherwise it is a 100-character view showing exactly the action markers,
with a space (never a ship symbol) on every untouched cell. -/
theorem claim_C7_enemy_view (b : Board) (hg : b.grid.length = 100) :
    (b.no_ships = true → b.enemy_view = some b.grid) ∧
    (b.no_ships = false → ∃ v, b.enemy_view = some v ∧ v.length = 100 ∧
      (∀ i, i < 100 → cell v i =
        if cell b.grid i ∈ Board.ACTIONS then cell b.grid i else ' ') ∧
      (∀ i, i < 100 → cell b.grid i ∉ Board.ACTIONS → cell v i = ' ')) := by
  constructor
  · intro h
    rw [Board.enemy_view, if_pos h]
  · intro h
    rw [Board.enemy_view, if_neg (by simp [h])]
    refine ⟨(List.range 100).map (fun xy =>
      if cell b.grid xy ∈ Board.ACTIONS then cell b.grid xy else ' '), ?_, by simp, ?_, ?_⟩
    · refine mapM_option_eq_map _ _ _ (fun i hi => ?_)
      have hi100 : i < 100 := by simpa using hi
      rw [pyGetStr_nonneg _ _ (by omega) (by simp [hg]; omega)]
      simp [cell]
    · intro i hi
      rw [cell, getD_map_range _ _ _ _ hi]
    · intro i hi hno
      rw [cell, getD_map_range _ _ _ _ hi, if_neg hno]

/-- C7 witness: the fresh standard board has ships, so its enemy view is
all blanks at cell 0. -/
theorem claim_C7_witness :
    ∃ v, Board.enemy_view stdBoard = some v ∧ v.length = 100 ∧ cell v 0 = ' ' := by
  have h := (claim_C7_enemy_view stdBoard (by decide)).2 (by decide)
  obtain ⟨v, hv, hlen, hcells, hblank⟩ := h
  exact ⟨v, hv, hlen, hblank 0 (by decide) (by decide)⟩

/-- C9: on reachable boards the three ship queries agree: no ships left
iff the remaining set is empty iff the sunk set is the whole catalog. -/
theorem claim_C9_ship_queries (g0 : List Char) (b0 b : Board)
    (h0 : Board.mk? g0 = some b0) (hr : Reach b0 b) :
    (b.no_ships = true ↔ b.remaining_ships = ∅) ∧
    (b.no_ships = true ↔ b.sunk_ships = (ships.map (fun s => s.symbol)).toFinset) := by
  obtain ⟨-, hval, hsg, hg, hcells⟩ := reach_facts g0 b0 b h0 hr
  have hchar : ∀ c ∈ b.grid, c ∈ Board.allowedStart ∪ Board.ACTIONS := by
    intro c hc
    obtain ⟨i, hi, hcell⟩ := (mem_iff_cell b.grid c).mp hc
    rcases hcells i (by omega) with h1 | h1
    · rw [← hcell, h1]
      exact Finset.mem_union_left _ (Board.start_cell_allowed b hval i (by omega))
    · rw [← hcell]
      exact Finset.mem_union_right _ h1
  have hns : b.no_ships = true ↔
      b.grid.toFinset ⊆ Board.ACTIONS ∪ {Board.NO_ACTION} := by
    rw [Board.no_ships]
    exact decide_eq_true_iff
  have hdisj : ∀ c ∈ (ships.map (fun s => s.symbol)).toFinset,
      c ∉ Board.ACTIONS ∪ {Board.NO_ACTION} := by decide
  have h1 : b.no_ships = true ↔ b.remaining_ships = ∅ := by
    rw [hns, Board.remaining_ships]
    constructor
    · intro hsub
      rw [Finset.eq_empty_iff_forall_not_mem]
      intro c hc
      obtain ⟨hcg, hcs⟩ := Finset.mem_inter.mp hc
      exact hdisj c hcs (hsub hcg)
    · intro hEq
      intro c hc
      have hcs : c ∉ (ships.map (fun s => s.symbol)).toFinset := by
        intro hmem
        have : c ∈ b.grid.toFinset ∩ (ships.map (fun s => s.symbol)).toFinset :=
          Finset.mem_inter.mpr ⟨hc, hmem⟩
        rw [hEq] at this
        exact absurd this (Finset.not_mem_empty c)
      have hin := hchar c (List.mem_toFinset.mp hc)
      rw [Board.allowedStart] at hin
      rcases Finset.mem_union.mp hin with h2 | h2
      · rcases Finset.mem_union.mp h2 with h3 | h3
        · exact absurd h3 hcs
        · exact Finset.mem_union_right _ h3
      · exact Finset.mem_union_left _ h2
  have h2 : b.sunk_ships = (ships.map (fun s => s.symbol)).toFinset ↔
      b.remaining_ships = ∅ := by
    rw [Board.sunk_ships]
    constructor
    · intro hEq
      rw [Finset.eq_empty_iff_forall_not_mem]
      intro c hc
      have hcs : c ∈ (ships.map (fun s => s.symbol)).toFinset :=
        Finset.mem_of_mem_inter_right hc
      rw [← hEq] at hcs
      exact (Finset.mem_sdiff.mp hcs).2 hc
    · intro hEq
      rw [hEq, Finset.sdiff_empty]
  exact ⟨h1, h1.trans h2.symm⟩

/-- C9 witness: the fresh standard board has ships, its remaining set is
the full catalog and its sunk set is empty. -/
theorem claim_C9_witness :
    stdBoard.no_ships = false ∧ stdBoard.remaining_ships ≠ ∅ := by
  have h := (claim_C9_ship_queries stdFleet stdBoard stdBoard (by rfl)
    (Reach.refl stdBoard)).1
  refine ⟨by decide, fun hEq => ?_⟩
  have := h.mpr hEq
  rw [show stdBoard.no_ships = false by decide] at this
  exact absurd this (by decide)


/-- C3: a successful shot by the current player finishes the game without
advancing the turn when the opponent has no ships left (so `winner` is the
player who just fired), and otherwise keeps the game PLAYING and makes the
opponent the current player. -/
theorem claim_C3_turn_and_finish (g : Game) (pn : String) (x y : Int)
    (cur oth : Player) (r : String)
    (hst : g.state = .PLAYING) (hcur : g.current = some cur) (hoth : g.other = some oth)
    (hname : cur.name = pn)
    (hok : (oth.board.shoot x y).2 = .ok r) :
    (g.shoot pn x y).2 = .ok r ∧
    ((oth.board.shoot x y).1.no_ships = true →
      (g.shoot pn x y).1.state = .FINISHED ∧
      (g.shoot pn x y).1.current = some cur ∧
      (g.shoot pn x y).1.winner = some cur) ∧
    ((oth.board.shoot x y).1.no_ships = false →
      (g.shoot pn x y).1.state = .PLAYING ∧
      (g.shoot pn x y).1.current = some { oth with board := (oth.board.shoot x y).1 } ∧
      (g.shoot pn x y).1.other = some cur) := by
  rw [Game.shoot, hcur]
  dsimp only
  rw [if_neg (by simp [hname]), hst, if_neg (by simp), hoth]
  dsimp only
  rw [hok]
  dsimp only
  by_cases hns : (oth.board.shoot x y).1.no_ships = true
  · rw [if_pos hns]
    refine ⟨rfl, fun h2 => ⟨rfl, rfl, ?_⟩, fun h2 => absurd hns (by simp [h2])⟩
    rw [Game.winner, if_pos rfl]
  · rw [if_neg hns]
    exact ⟨rfl, fun h2 => absurd h2 hns, fun h2 => ⟨rfl, rfl, rfl⟩⟩

/-- Players of the witness games. -/
def pAlice : Player := ⟨1, "alice", stdBoard⟩

/-- Second witness player. -/
def pBob : Player := ⟨2, "bob", stdBoard⟩

/-- A two-player game in progress, alice to move. -/
def gPlay : Game := ⟨some pAlice, some pBob, .PLAYING⟩

/-- C3 witness: alice misses at (9,9); the game stays PLAYING and bob
becomes current. -/
theorem claim_C3_witness :
    (gPlay.shoot "alice" 9 9).2 = .ok "Miss" ∧
    (gPlay.shoot "alice" 9 9).1.state = .PLAYING := by
  have h := claim_C3_turn_and_finish gPlay "alice" 9 9 pAlice pBob "Miss"
    rfl rfl rfl rfl (by rfl)
  exact ⟨h.1, (h.2.2 (by decide)).1⟩

/-- C6: `join` fails unless the game is NEW; the first join fills the
current slot and keeps the state NEW; a second join by the identical
player fails, while a distinct player flips the state to PLAYING; and
after that every further join fails because the state left NEW. -/
theorem claim_C6_join (g : Game) (p : Player) :
    (g.state ≠ .NEW → (g.join p).2 = .error (.joinNotNew g.state) ∧ (g.join p).1 = g) ∧
    (g.state = .NEW → g.current = none →
      (g.join p).1 = { g with current := some p } ∧ (g.join p).2 = .ok () ∧
      (g.join p).1.state = .NEW) ∧
    (g.state = .NEW → ∀ cur : Player, g.current = some cur →
      (cur.pid = p.pid → (g.join p).2 = .error .joinTwice ∧ (g.join p).1 = g) ∧
      (cur.pid ≠ p.pid →
        (g.join p).1 = { g with other := some p, state := .PLAYING } ∧
        (g.join p).2 = .ok () ∧
        ∀ q : Player, ((g.join p).1.join q).2 = .error (.joinNotNew .PLAYING))) := by
  refine ⟨fun hne => ?_, fun hst hcur => ?_, fun hst cur hcur => ?_⟩
  · rw [Game.join, if_pos hne]
    exact ⟨rfl, rfl⟩
  · rw [Game.join, if_neg (by simp [hst]), hcur]
    exact ⟨rfl, rfl, hst⟩
  · rw [Game.join, if_neg (by simp [hst]), hcur]
    dsimp only
    refine ⟨fun hpid => ?_, fun hpid => ?_⟩
    · rw [if_pos hpid]
      exact ⟨rfl, rfl⟩
    · rw [if_neg hpid]
      refine ⟨rfl, rfl, fun q => ?_⟩
      rw [Game.join]
      rw [if_pos (by simp)]

/-- C6 witness: a fresh game accepts alice then bob, rejects alice
joining twice, and rejects any join after the second. -/
theorem claim_C6_witness :
    ((Game.init.join pAlice).1.state = .NEW) ∧
    (((Game.init.join pAlice).1.join pAlice).2 = .error .joinTwice) ∧
    (((Game.init.join pAlice).1.join pBob).1 =
      { (Game.init.join pAlice).1 with other := some pBob, state := .PLAYING }) ∧
    ((((Game.init.join pAlice).1.join pBob).1.join pAlice).2 =
      .error (.joinNotNew .PLAYING)) := by
  have h1 := (claim_C6_join Game.init pAlice).2.1 rfl rfl
  have h2 := (claim_C6_join (Game.init.join pAlice).1 pAlice).2.2 (by rw [h1.1]; rfl)
    pAlice (by rw [h1.1])
  have h3 := (claim_C6_join (Game.init.join pAlice).1 pBob).2.2 (by rw [h1.1]; rfl)
    pAlice (by rw [h1.1])
  have h4 := h3.2 (by decide)
  exact ⟨h1.2.2, (h2.1 rfl).1, h4.1, h4.2.2 pAlice⟩


/-- A one-player NEW game used to refute the claimed check order of the
core `Game.shoot` (`models.py`). -/
def gC5 : Game := ⟨some ⟨1, "alice", ⟨[], []⟩⟩, none, .NEW⟩

/-- C5 counterexample: in the core `Game` (`models.py`) the turn check runs
before the state check, so a NEW (not PLAYING) game with one joined player
rejects a wrong-named shooter with the turn error, not the state error. -/
theorem claim_C5_counterexample :
    gC5.state ≠ GState.PLAYING ∧
    (gC5.shoot "bob" 0 0).2 = .error (.notYourTurn "alice") ∧
    ∀ st : GState, (gC5.shoot "bob" 0 0).2 ≠ .error (.badStateShoot st) := by
  have hEq : (gC5.shoot "bob" 0 0).2 = .error (.notYourTurn "alice") := by rfl
  refine ⟨by decide, hEq, fun st => ?_⟩
  rw [hEq]
  intro h
  have h2 : GErr.notYourTurn "alice" = GErr.badStateShoot st := by
    injection h
  cases st <;> exact absurd h2 (by decide)

/-- C5 (amended): in the API `Game` (`app/api/models.py`) the state check
is decided before the turn check: any non-PLAYING game fails with the
state error, and a PLAYING game with a wrong player name fails with the
turn error.  In the core `Game` (`models.py`) the order is reversed: the
missing-players check and the turn check are decided before the state
check. -/
theorem claim_C5_amended :
    (∀ (g : ApiGame) (pn : String) (x y : Int), g.state ≠ .PLAYING →
      (ApiGame.shoot g pn x y).2 = .error (.badStateShoot g.state) ∧
      (ApiGame.shoot g pn x y).1 = g) ∧
    (∀ (g : ApiGame) (pn : String) (x y : Int) (cur : ApiPlayer),
      g.state = .PLAYING → ApiGame.current g = some cur → cur.name ≠ pn →
      (ApiGame.shoot g pn x y).2 = .error (.notYourTurn cur.name) ∧
      (ApiGame.shoot g pn x y).1 = g) ∧
    (∀ (g : Game) (pn : String) (x y : Int), g.current = none →
      (g.shoot pn x y).2 = .error .noPlayers) ∧
    (∀ (g : Game) (pn : String) (x y : Int) (cur : Player),
      g.current = some cur → cur.name ≠ pn →
      (g.shoot pn x y).2 = .error (.notYourTurn cur.name)) := by
  refine ⟨fun g pn x y hst => ?_, fun g pn x y cur hst hcur hname => ?_,
    fun g pn x y hcur => ?_, fun g pn x y cur hcur hname => ?_⟩
  · rw [ApiGame.shoot, if_pos hst]
    exact ⟨rfl, rfl⟩
  · rw [ApiGame.shoot, if_neg (by simp [hst]), hcur]
    dsimp only
    rw [if_pos hname]
    exact ⟨rfl, rfl⟩
  · rw [Game.shoot, hcur]
  · rw [Game.shoot, hcur]
    dsimp only
    rw [if_pos hname]

/-- An API player and a PLAYING API game for the C5 witness. -/
def agPlaying : ApiGame :=
  ⟨.PLAYING, [⟨some 1, "alice", ⟨[], []⟩⟩, ⟨some 2, "bob", ⟨[], []⟩⟩], some 0⟩

/-- C5 witness: a NEW API game reports the state error for any caller; a
PLAYING API game with alice current rejects bob with the turn error; a
playerless core game reports the missing-players error; and `gC5` rejects
bob with the turn error. -/
theorem claim_C5_witness :
    (ApiGame.shoot ⟨.NEW, [], none⟩ "bob" 0 0).2 = .error (.badStateShoot .NEW) ∧
    (ApiGame.shoot agPlaying "bob" 0 0).2 = .error (.notYourTurn "alice") ∧
    (Game.shoot ⟨none, none, .NEW⟩ "bob" 0 0).2 = .error .noPlayers ∧
    (gC5.shoot "bob" 0 0).2 = .error (.notYourTurn "alice") := by
  refine ⟨?_, ?_, ?_, ?_⟩
  · exact (claim_C5_amended.1 ⟨.NEW, [], none⟩ "bob" 0 0 (by decide)).1
  · exact (claim_C5_amended.2.1 agPlaying "bob" 0 0 ⟨some 1, "alice", ⟨[], []⟩⟩
      rfl rfl (by decide)).1
  · exact claim_C5_amended.2.2.1 ⟨none, none, .NEW⟩ "bob" 0 0 rfl
  · exact claim_C5_amended.2.2.2 gC5 "bob" 0 0 ⟨1, "alice", ⟨[], []⟩⟩ rfl (by decide)


/-- C8: failing operations leave all observable state unchanged: a raising
`Board.shoot` returns the board as it was (on boards reachable from a
valid construction), a raising core `Game.shoot` leaves the game intact
(including when the delegated board shot raises), and a raising
`Game.join` changes nothing. -/
theorem claim_C8_atomicity :
    (∀ (g0 : List Char) (b0 b : Board) (x y : Int) (e : Board.Err),
      Board.mk? g0 = some b0 → Reach b0 b →
      (b.shoot x y).2 = .error e → (b.shoot x y).1 = b) ∧
    (∀ (g : Game) (pn : String) (x y : Int) (e : GErr),
      (∀ oth : Player, g.other = some oth →
        ∃ g0 b0, Board.mk? g0 = some b0 ∧ Reach b0 oth.board) →
      (g.shoot pn x y).2 = .error e → (g.shoot pn x y).1 = g) ∧
    (∀ (g : Game) (p : Player) (e : GErr),
      (g.join p).2 = .error e → (g.join p).1 = g) := by
  have boardPart : ∀ (g0 : List Char) (b0 b : Board) (x y : Int) (e : Board.Err),
      Board.mk? g0 = some b0 → Reach b0 b →
      (b.shoot x y).2 = .error e → (b.shoot x y).1 = b := by
    intro g0 b0 b x y e hmk hr herr
    obtain ⟨-, hval, -, hg, -⟩ := reach_facts g0 b0 b hmk hr
    exact Board.shoot_error_unchanged b x y e hval hg herr
  refine ⟨boardPart, fun g pn x y e hw herr => ?_, fun g p e herr => ?_⟩
  · obtain ⟨gc, go, gs⟩ := g
    rw [Game.shoot] at herr ⊢
    rcases gc with - | cur
    · rfl
    · dsimp only at herr ⊢
      by_cases hname : cur.name ≠ pn
      · rw [if_pos hname]
      · rw [if_neg hname] at herr ⊢
        by_cases hstate : gs ≠ .PLAYING
        · rw [if_pos hstate]
        · rw [if_neg hstate] at herr ⊢
          rcases go with - | oth
          · rfl
          · obtain ⟨opid, oname, obd⟩ := oth
            dsimp only at herr ⊢
            rcases hbr : (Board.shoot obd x y).2 with e2 | r
            · rw [hbr] at herr
              dsimp only
              obtain ⟨g0, b0, hmk, hre⟩ := hw ⟨opid, oname, obd⟩ rfl
              rw [boardPart g0 b0 obd x y e2 hmk hre hbr]
            · rw [hbr] at herr
              dsimp only at herr
              by_cases hns : (Board.shoot obd x y).1.no_ships = true
              · rw [if_pos hns] at herr
                exact absurd herr (by simp)
              · rw [if_neg hns] at herr
                exact absurd herr (by simp)
  · obtain ⟨gc, go, gs⟩ := g
    rw [Game.join] at herr ⊢
    dsimp only at herr ⊢
    by_cases hst : gs ≠ .NEW
    · rw [if_pos hst]
    · rw [if_neg hst] at herr ⊢
      rcases gc with - | cur
      · exact absurd herr (by simp)
      · dsimp only at herr ⊢
        by_cases hpid : cur.pid = p.pid
        · rw [if_pos hpid]
        · rw [if_neg hpid] at herr
          exact absurd herr (by simp)

/-- C8 witness: a second shot at (0,0) raises and leaves the board intact;
a wrong-turn game shot raises and leaves the game intact; a late join
raises and leaves the game intact. -/
theorem claim_C8_witness :
    (Board.shoot (Board.shoot stdBoard 0 0).1 0 0).1 = (Board.shoot stdBoard 0 0).1 ∧
    (gPlay.shoot "bob" 0 0).1 = gPlay ∧
    (gPlay.join pAlice).1 = gPlay := by
  have hr : Reach stdBoard (Board.shoot stdBoard 0 0).1 :=
    Reach.step stdBoard stdBoard 0 0 (by decide) (by decide) (by decide) (by decide)
      (Reach.refl stdBoard)
  refine ⟨?_, ?_, ?_⟩
  · exact claim_C8_atomicity.1 stdFleet stdBoard (Board.shoot stdBoard 0 0).1 0 0
      (.alreadyActed 0 0) (by rfl) hr (by rfl)
  · refine claim_C8_atomicity.2.1 gPlay "bob" 0 0 (.notYourTurn "alice") ?_ (by rfl)
    intro oth hoth
    refine ⟨stdFleet, stdBoard, by rfl, ?_⟩
    have : oth = pBob := by injection hoth with h2; exact h2.symm
    rw [this]
    exact Reach.refl stdBoard
  · exact claim_C8_atomicity.2.2 gPlay pAlice (.joinNotNew .PLAYING) (by rfl)


namespace Board

theorem can_shoot_at_congr (b : Board) (x1 y1 x2 y2 : Int)
    (h : _to_1d x1 y1 = _to_1d x2 y2) :
    b.can_shoot_at x1 y1 = b.can_shoot_at x2 y2 := by
  rw [can_shoot_at, can_shoot_at, h]

/-- `shoot` depends on the coordinates only through the linear index, up
to the coordinates recorded in the already-acted error message. -/
theorem shoot_congr (b : Board) (x1 y1 x2 y2 : Int)
    (h : _to_1d x1 y1 = _to_1d x2 y2) :
    (b.shoot x1 y1).1 = (b.shoot x2 y2).1 ∧
    (∀ r, (b.shoot x1 y1).2 = .ok r ↔ (b.shoot x2 y2).2 = .ok r) := by
  rw [shoot, shoot, can_shoot_at_congr b x1 y1 x2 y2 h, h]
  rcases hv : b.can_shoot_at x2 y2 with e | v
  · exact ⟨rfl, fun r => Iff.rfl⟩
  · rcases v with - | -
    · exact ⟨rfl, fun r => by simp⟩
    · exact ⟨rfl, fun r => Iff.rfl⟩

end Board

/-- C10: the linear index `y*10 + x` maps `[0,9]x[0,9]` bijectively onto
`[0,99]`, so in-range shots never perform an out-of-range access; but
nothing rejects out-of-range coordinates: any pair whose linear index
lands in `[0,99]` (such as `x=15, y=0`) acts on the aliased in-board cell,
and negative linear indices read via Python negative indexing. -/
theorem claim_C10_indexing :
    (∀ x y : Int, 0 ≤ x → x < 10 → 0 ≤ y → y < 10 →
      0 ≤ Board._to_1d x y ∧ Board._to_1d x y < 100) ∧
    (∀ x1 y1 x2 y2 : Int, 0 ≤ x1 → x1 < 10 → 0 ≤ y1 → y1 < 10 →
      0 ≤ x2 → x2 < 10 → 0 ≤ y2 → y2 < 10 →
      Board._to_1d x1 y1 = Board._to_1d x2 y2 → x1 = x2 ∧ y1 = y2) ∧
    (∀ i : Int, 0 ≤ i → i < 100 → ∃ x y, 0 ≤ x ∧ x < 10 ∧ 0 ≤ y ∧ y < 10 ∧
      Board._to_1d x y = i) ∧
    (∀ (b : Board) (x y : Int), b.grid.length = 100 → b.starting_grid.length = 100 →
      0 ≤ Board._to_1d x y → Board._to_1d x y < 100 →
      b.can_shoot_at x y = .ok (cell b.grid (Board._to_1d x y).toNat ==
        cell b.starting_grid (Board._to_1d x y).toNat)) ∧
    (∀ (b : Board) (x y : Int), 0 ≤ Board._to_1d x y → Board._to_1d x y < 100 →
      b.can_shoot_at x y =
        b.can_shoot_at (Board._to_1d x y % 10) (Board._to_1d x y / 10) ∧
      (b.shoot x y).1 = (b.shoot (Board._to_1d x y % 10) (Board._to_1d x y / 10)).1 ∧
      (∀ r, (b.shoot x y).2 = .ok r ↔
        (b.shoot (Board._to_1d x y % 10) (Board._to_1d x y / 10)).2 = .ok r)) ∧
    (∀ (b : Board) (x y : Int), b.grid.length = 100 → b.starting_grid.length = 100 →
      Board._to_1d x y < 0 → 0 ≤ Board._to_1d x y + 100 →
      b.can_shoot_at x y = .ok (cell b.grid (Board._to_1d x y + 100).toNat ==
        cell b.starting_grid (Board._to_1d x y + 100).toNat)) := by
  have halias : ∀ x y : Int,
      Board._to_1d (Board._to_1d x y % 10) (Board._to_1d x y / 10) = Board._to_1d x y := by
    intro x y
    rw [Board._to_1d, Board._to_1d]
    omega
  refine ⟨?_, ?_, ?_, ?_, ?_, ?_⟩
  · intro x y hx hx10 hy hy10
    rw [Board._to_1d]
    omega
  · intro x1 y1 x2 y2 hx1 hx1' hy1 hy1' hx2 hx2' hy2 hy2' h
    rw [Board._to_1d, Board._to_1d] at h
    omega
  · intro i h0 h100
    refine ⟨i % 10, i / 10, by omega, by omega, by omega, by omega, ?_⟩
    rw [Board._to_1d]
    omega
  · intro b x y hg hsg h0 h100
    exact Board.can_shoot_at_in_range b x y h0 (by omega) (by omega)
  · intro b x y h0 h100
    have hsc := Board.shoot_congr b x y (Board._to_1d x y % 10) (Board._to_1d x y / 10)
      (halias x y).symm
    exact ⟨Board.can_shoot_at_congr b x y _ _ (halias x y).symm, hsc.1, hsc.2⟩
  · intro b x y hg hsg hneg h100
    rw [Board.can_shoot_at,
      pyGetStr_neg b.grid _ hneg (by rw [hg]; exact h100),
      pyGetStr_neg b.starting_grid _ hneg (by rw [hsg]; exact h100)]
    rw [hg, hsg]
    rfl

/-- C10 witness: on the standard board, shooting `x=15, y=0` acts on cell
15 (row 1, column 5), and `x=-1, y=0` reads cell 99. -/
theorem claim_C10_witness :
    stdBoard.can_shoot_at 15 0 = stdBoard.can_shoot_at 5 1 ∧
    (stdBoard.shoot 15 0).1 = (stdBoard.shoot 5 1).1 ∧
    stdBoard.can_shoot_at (-1) 0 = .ok (cell stdBoard.grid 99 ==
      cell stdBoard.starting_grid 99) ∧
    0 ≤ Board._to_1d 3 7 ∧ Board._to_1d 3 7 < 100 := by
  have h5 := claim_C10_indexing.2.2.2.2.1 stdBoard 15 0 (by decide) (by decide)
  have h6 := claim_C10_indexing.2.2.2.2.2 stdBoard (-1) 0 (by decide) (by decide)
    (by decide) (by decide)
  have h1 := claim_C10_indexing.1 3 7 (by decide) (by decide) (by decide) (by decide)
  exact ⟨h5.1, h5.2.1, h6, h1⟩


/-! ### Infrastructure for the grid-validation refinement (C1) -/

theorem indexOf_min (l : List Char) (a : Char) :
    ∀ k, k < l.indexOf a → cell l k ≠ a := by
  induction l with
  | nil =>
    intro k hk
    rw [show List.indexOf a ([] : List Char) = 0 from rfl] at hk
    omega
  | cons b t ih =>
    intro k hk
    rw [List.indexOf_cons] at hk
    by_cases hb : b = a
    · rw [show (b == a) = true by simp [hb]] at hk
      simp at hk
    · rw [show (b == a) = false by simp [hb]] at hk
      simp only [cond_false] at hk
      cases k with
      | zero => rw [cell]; simpa using hb
      | succ k2 =>
        have := ih k2 (by omega)
        rw [cell] at this ⊢
        simpa using this

theorem indexOf_eq_of_min (l : List Char) (a : Char) (j : Nat) (hj : j < l.length)
    (hval : cell l j = a) (hmin : ∀ k, k < j → cell l k ≠ a) : l.indexOf a = j := by
  induction l generalizing j with
  | nil => simp at hj
  | cons b t ih =>
    rw [List.indexOf_cons]
    cases j with
    | zero =>
      rw [cell] at hval
      simp at hval
      rw [show (b == a) = true by simp [hval]]
      rfl
    | succ j2 =>
      have hb : b ≠ a := by
        have := hmin 0 (by omega)
        rw [cell] at this
        simpa using this
      rw [show (b == a) = false by simp [hb]]
      simp only [cond_false]
      have hrec := ih j2 (by simpa using hj)
        (by rw [cell]; rw [cell] at hval; simpa using hval)
        (fun k hk => by
          have := hmin (k + 1) (by omega)
          rw [cell] at this ⊢
          simpa using this)
      omega

theorem getD_indexOf (l : List Char) (a : Char) (h : a ∈ l) :
    cell l (l.indexOf a) = a := by
  rw [cell, getD_eq_getElem _ _ _ (List.indexOf_lt_length.mpr h)]
  exact List.getElem_indexOf (List.indexOf_lt_length.mpr h)

theorem count_eq_filter_range (l : List Char) (a : Char) :
    l.count a = ((List.range l.length).filter (fun i => cell l i == a)).length := by
  induction l with
  | nil => rfl
  | cons b t ih =>
    rw [List.count_cons, List.length_cons, List.range_succ_eq_map, List.filter_cons]
    have hmap : (List.map Nat.succ (List.range t.length)).filter
        (fun i => cell (b :: t) i == a) =
        List.map Nat.succ ((List.range t.length).filter (fun i => cell t i == a)) := by
      rw [List.filter_map]
      rfl
    rw [hmap]
    by_cases hb : b = a
    · subst hb
      simp [cell, ih]
    · simp [cell, ih, hb]

theorem slice_replicate_iff (l : List Char) (c n : Nat) (sym : Char)
    (h : c + n ≤ l.length) :
    ((l.drop c).take n = List.replicate n sym) ↔ ∀ j, j < n → cell l (c + j) = sym := by
  have hlen : ((l.drop c).take n).length = n := by
    rw [List.length_take, List.length_drop]
    omega
  rw [List.eq_replicate_iff]
  constructor
  · rintro ⟨-, hall⟩ j hj
    have hmem : l[c + j] ∈ (l.drop c).take n := by
      rw [List.mem_iff_getElem]
      refine ⟨j, by omega, ?_⟩
      rw [List.getElem_take, List.getElem_drop]
    rw [cell, getD_eq_getElem _ _ _ (by omega)]
    exact hall _ hmem
  · intro hall
    refine ⟨hlen, fun b hb => ?_⟩
    rw [List.mem_iff_getElem] at hb
    obtain ⟨j, hj, hjb⟩ := hb
    rw [hlen] at hj
    rw [List.getElem_take, List.getElem_drop] at hjb
    have := hall j hj
    rw [cell, getD_eq_getElem _ _ _ (by omega)] at this
    rw [← hjb]
    exact this

theorem mem_len2 {α} (l : List α) (a b : α) (ha : a ∈ l) (hb : b ∈ l) (hne : a ≠ b) :
    2 ≤ l.length := by
  match l with
  | [] => cases ha
  | [x] =>
    simp at ha hb
    exact absurd (ha.trans hb.symm) hne
  | x :: y :: t => simp

/-- Any list of `l.count sym` distinct in-range positions all holding
`sym` is exactly the set of occurrences of `sym` in `l`. -/
theorem occurrences_eq (l : List Char) (sym : Char) (S : List Nat) (hnd : S.Nodup)
    (hlen : S.length = l.count sym)
    (hmem : ∀ p ∈ S, p < l.length ∧ cell l p = sym) :
    ∀ p, p < l.length → cell l p = sym → p ∈ S := by
  intro p hp hval
  have hOnd : ((List.range l.length).filter (fun i => cell l i == sym)).Nodup :=
    List.Nodup.filter _ (List.nodup_range _)
  have hsub : S.toFinset ⊆
      ((List.range l.length).filter (fun i => cell l i == sym)).toFinset := by
    intro q hq
    rw [List.mem_toFinset] at hq
    obtain ⟨hq1, hq2⟩ := hmem q hq
    rw [List.mem_toFinset, List.mem_filter]
    exact ⟨List.mem_range.mpr hq1, by simpa using hq2⟩
  have hcards : ((List.range l.length).filter (fun i => cell l i == sym)).toFinset.card ≤
      S.toFinset.card := by
    rw [List.toFinset_card_of_nodup hnd, List.toFinset_card_of_nodup hOnd,
      hlen, count_eq_filter_range]
  have hEq := Finset.eq_of_subset_of_card_le hsub hcards
  have hpO : p ∈ ((List.range l.length).filter (fun i => cell l i == sym)).toFinset := by
    rw [List.mem_toFinset, List.mem_filter]
    exact ⟨List.mem_range.mpr hp, by simpa using hval⟩
  rw [← hEq, List.mem_toFinset] at hpO
  exact hpO


theorem gam_getD (grid : List Char) (h100 : grid.length = 100) (r : Nat) (hr : r < 10) :
    (Board.grid_as_matrix grid).getD r [] = (grid.drop (10 * r)).take 10 := by
  rw [Board.grid_as_matrix, h100, show (100 + 9) / 10 = 10 from rfl]
  exact getD_map_range _ _ _ _ hr

theorem row_eq_map (grid : List Char) (h100 : grid.length = 100) (r : Nat) (hr : r < 10) :
    (grid.drop (10 * r)).take 10 =
      (List.range 10).map (fun c => cell grid (10 * r + c)) := by
  refine List.ext_getElem ?_ ?_
  · rw [List.length_take, List.length_drop, h100]
    simp
    omega
  · intro i h1 h2
    have hi10 : i < 10 := by
      rw [List.length_take, List.length_drop] at h1
      omega
    rw [List.getElem_take, List.getElem_drop, List.getElem_map, List.getElem_range,
      cell, getD_eq_getElem _ _ _ (by omega)]

theorem row_cell (grid : List Char) (h100 : grid.length = 100) (r : Nat) (hr : r < 10)
    (c : Nat) (hc : c < 10) :
    cell ((grid.drop (10 * r)).take 10) c = cell grid (10 * r + c) := by
  rw [row_eq_map grid h100 r hr, cell, getD_map_range _ _ _ _ hc]

theorem row_count (grid : List Char) (h100 : grid.length = 100) (r : Nat) (hr : r < 10)
    (sym : Char) :
    ((grid.drop (10 * r)).take 10).count sym =
      List.countP (fun c => cell grid (10 * r + c) == sym) (List.range 10) := by
  rw [row_eq_map grid h100 r hr, List.count_eq_countP, List.countP_map]
  rfl

theorem minRowLen_const (g : List (List Char)) (n : Nat) (hne : g ≠ [])
    (hall : ∀ r ∈ g, r.length = n) : Board.minRowLen g = n := by
  induction g with
  | nil => exact absurd rfl hne
  | cons r rs ih =>
    cases rs with
    | nil =>
      rw [show Board.minRowLen [r] = r.length from rfl]
      exact hall r (by simp)
    | cons r2 rs2 =>
      rw [show Board.minRowLen (r :: r2 :: rs2) =
        min r.length (Board.minRowLen (r2 :: rs2)) from rfl]
      rw [hall r (by simp), ih (by simp) (fun q hq => hall q (by simp [hq]))]
      omega

theorem gam_rows_length (grid : List Char) (h100 : grid.length = 100) :
    ∀ row ∈ Board.grid_as_matrix grid, row.length = 10 := by
  intro row hrow
  rw [Board.grid_as_matrix, h100, show (100 + 9) / 10 = 10 from rfl] at hrow
  rw [List.mem_map] at hrow
  obtain ⟨k, hk, hEq⟩ := hrow
  rw [List.mem_range] at hk
  rw [← hEq, List.length_take, List.length_drop, h100]
  omega

theorem minRowLen_gam (grid : List Char) (h100 : grid.length = 100) :
    Board.minRowLen (Board.grid_as_matrix grid) = 10 := by
  refine minRowLen_const _ 10 ?_ (gam_rows_length grid h100)
  intro hEq
  have : (Board.grid_as_matrix grid).length = 10 := by
    rw [Board.grid_as_matrix, h100]
    simp
  rw [hEq] at this
  simp at this

theorem col_eq_map (grid : List Char) (h100 : grid.length = 100) (c : Nat) (hc : c < 10) :
    (Board.pyZip (Board.grid_as_matrix grid)).getD c [] =
      (List.range 10).map (fun r => cell grid (10 * r + c)) := by
  rw [Board.pyZip, minRowLen_gam grid h100, getD_map_range _ _ _ _ hc]
  rw [Board.grid_as_matrix, h100, show (100 + 9) / 10 = 10 from rfl, List.map_map]
  refine List.map_congr_left ?_
  intro r hr
  rw [List.mem_range] at hr
  exact row_cell grid h100 r hr c hc

theorem col_cell (grid : List Char) (h100 : grid.length = 100) (c : Nat) (hc : c < 10)
    (r : Nat) (hr : r < 10) :
    cell ((Board.pyZip (Board.grid_as_matrix grid)).getD c []) r =
      cell grid (10 * r + c) := by
  rw [col_eq_map grid h100 c hc, cell, getD_map_range _ _ _ _ hr]

theorem col_length (grid : List Char) (h100 : grid.length = 100) (c : Nat) (hc : c < 10) :
    ((Board.pyZip (Board.grid_as_matrix grid)).getD c []).length = 10 := by
  rw [col_eq_map grid h100 c hc]
  simp

theorem mem_col_iff (grid : List Char) (h100 : grid.length = 100) (c : Nat) (hc : c < 10)
    (sym : Char) :
    sym ∈ (Board.pyZip (Board.grid_as_matrix grid)).getD c [] ↔
      ∃ r, r < 10 ∧ cell grid (10 * r + c) = sym := by
  rw [col_eq_map grid h100 c hc, List.mem_map]
  constructor
  · rintro ⟨r, hr, hEq⟩
    exact ⟨r, List.mem_range.mp hr, hEq⟩
  · rintro ⟨r, hr, hEq⟩
    exact ⟨r, List.mem_range.mpr hr, hEq⟩


theorem row_length (grid : List Char) (h100 : grid.length = 100) (r : Nat) (hr : r < 10) :
    ((grid.drop (10 * r)).take 10).length = 10 := by
  rw [List.length_take, List.length_drop, h100]
  omega

/-- `n` consecutive horizontal occurrences exhaust the count, so the spec's
horizontal-run predicate holds. -/
theorem SpecHoriz_of_run (grid : List Char) (sym : Char) (n : Nat)
    (h100 : grid.length = 100) (hcount : grid.count sym = n) (hn1 : 1 ≤ n)
    (r c : Nat) (hr : r < 10) (hcn : c + n ≤ 10)
    (hcells : ∀ j, j < n → cell grid (10 * r + (c + j)) = sym) :
    SpecHoriz grid sym n := by
  refine ⟨r, c, hr, hcn, fun p hp => ?_⟩
  have hSnd : ((List.range n).map (fun j => 10 * r + (c + j))).Nodup := by
    refine List.Nodup.map ?_ (List.nodup_range _)
    intro a b hab
    dsimp only at hab
    omega
  have hSlen : ((List.range n).map (fun j => 10 * r + (c + j))).length = grid.count sym := by
    simp [hcount]
  have hSmem : ∀ q ∈ (List.range n).map (fun j => 10 * r + (c + j)),
      q < grid.length ∧ cell grid q = sym := by
    intro q hq
    rw [List.mem_map] at hq
    obtain ⟨j, hj, hEq⟩ := hq
    rw [List.mem_range] at hj
    subst hEq
    exact ⟨by omega, hcells j hj⟩
  constructor
  · intro hval
    have hpS := occurrences_eq grid sym _ hSnd hSlen hSmem p (by omega) hval
    rw [List.mem_map] at hpS
    obtain ⟨j, hj, hEq⟩ := hpS
    rw [List.mem_range] at hj
    subst hEq
    omega
  · rintro ⟨hp10, hpc1, hpc2⟩
    have hj := hcells (p % 10 - c) (by omega)
    have hpe : 10 * r + (c + (p % 10 - c)) = p := by omega
    rw [hpe] at hj
    exact hj

/-- `n` consecutive vertical occurrences exhaust the count, so the spec's
vertical-run predicate holds. -/
theorem SpecVert_of_run (grid : List Char) (sym : Char) (n : Nat)
    (h100 : grid.length = 100) (hcount : grid.count sym = n) (hn1 : 1 ≤ n)
    (c r : Nat) (hc : c < 10) (hrn : r + n ≤ 10)
    (hcells : ∀ j, j < n → cell grid (10 * (r + j) + c) = sym) :
    SpecVert grid sym n := by
  refine ⟨c, r, hc, hrn, fun p hp => ?_⟩
  have hSnd : ((List.range n).map (fun j => 10 * (r + j) + c)).Nodup := by
    refine List.Nodup.map ?_ (List.nodup_range _)
    intro a b hab
    dsimp only at hab
    omega
  have hSlen : ((List.range n).map (fun j => 10 * (r + j) + c)).length = grid.count sym := by
    simp [hcount]
  have hSmem : ∀ q ∈ (List.range n).map (fun j => 10 * (r + j) + c),
      q < grid.length ∧ cell grid q = sym := by
    intro q hq
    rw [List.mem_map] at hq
    obtain ⟨j, hj, hEq⟩ := hq
    rw [List.mem_range] at hj
    subst hEq
    exact ⟨by omega, hcells j hj⟩
  constructor
  · intro hval
    have hpS := occurrences_eq grid sym _ hSnd hSlen hSmem p (by omega) hval
    rw [List.mem_map] at hpS
    obtain ⟨j, hj, hEq⟩ := hpS
    rw [List.mem_range] at hj
    subst hEq
    omega
  · rintro ⟨hp10, hpr1, hpr2⟩
    have hj := hcells (p / 10 - r) (by omega)
    have hpe : 10 * (r + (p / 10 - r)) + c = p := by omega
    rw [hpe] at hj
    exact hj

theorem indexOf_horiz (grid : List Char) (sym : Char) (n : Nat)
    (h100 : grid.length = 100) (r c : Nat) (hr : r < 10) (hcn : c + n ≤ 10) (hn1 : 1 ≤ n)
    (hiff : ∀ p, p < 100 → (cell grid p = sym ↔ (p / 10 = r ∧ c ≤ p % 10 ∧ p % 10 < c + n))) :
    grid.indexOf sym = 10 * r + c := by
  refine indexOf_eq_of_min grid sym _ (by omega) ?_ ?_
  · exact (hiff _ (by omega)).mpr ⟨by omega, by omega, by omega⟩
  · intro k hk hval
    have := (hiff k (by omega)).mp hval
    omega

theorem indexOf_vert (grid : List Char) (sym : Char) (n : Nat)
    (h100 : grid.length = 100) (c r : Nat) (hc : c < 10) (hrn : r + n ≤ 10) (hn1 : 1 ≤ n)
    (hiff : ∀ p, p < 100 → (cell grid p = sym ↔ (p % 10 = c ∧ r ≤ p / 10 ∧ p / 10 < r + n))) :
    grid.indexOf sym = 10 * r + c := by
  refine indexOf_eq_of_min grid sym _ (by omega) ?_ ?_
  · exact (hiff _ (by omega)).mpr ⟨by omega, by omega, by omega⟩
  · intro k hk hval
    have := (hiff k (by omega)).mp hval
    omega

theorem sir_horiz_ne_one (grid : List Char) (sym : Char) (n : Nat)
    (h100 : grid.length = 100) (r c : Nat) (hr : r < 10) (hcn : c + n ≤ 10) (hn2 : 2 ≤ n)
    (hiff : ∀ p, p < 100 → (cell grid p = sym ↔ (p / 10 = r ∧ c ≤ p % 10 ∧ p % 10 < c + n))) :
    List.countP (fun x => cell grid (10 * r + x) == sym) (List.range 10) ≠ 1 := by
  have hc_mem : c ∈ (List.range 10).filter (fun x => cell grid (10 * r + x) == sym) := by
    rw [List.mem_filter]
    refine ⟨List.mem_range.mpr (by omega), ?_⟩
    have := (hiff (10 * r + c) (by omega)).mpr ⟨by omega, by omega, by omega⟩
    simpa using this
  have hc1_mem : c + 1 ∈ (List.range 10).filter (fun x => cell grid (10 * r + x) == sym) := by
    rw [List.mem_filter]
    refine ⟨List.mem_range.mpr (by omega), ?_⟩
    have := (hiff (10 * r + (c + 1)) (by omega)).mpr ⟨by omega, by omega, by omega⟩
    simpa using this
  have h2 := mem_len2 _ c (c + 1) hc_mem hc1_mem (by omega)
  rw [List.countP_eq_length_filter]
  omega

theorem sir_vert_eq_one (grid : List Char) (sym : Char) (n : Nat)
    (h100 : grid.length = 100) (c r : Nat) (hc : c < 10) (hrn : r + n ≤ 10) (hn1 : 1 ≤ n)
    (hiff : ∀ p, p < 100 → (cell grid p = sym ↔ (p % 10 = c ∧ r ≤ p / 10 ∧ p / 10 < r + n))) :
    List.countP (fun x => cell grid (10 * r + x) == sym) (List.range 10) = 1 := by
  have hcongr : ∀ x ∈ List.range 10,
      ((cell grid (10 * r + x) == sym) = true ↔ (x == c) = true) := by
    intro x hx
    rw [List.mem_range] at hx
    constructor
    · intro hval
      have := (hiff (10 * r + x) (by omega)).mp (by simpa using hval)
      simp
      omega
    · intro hxc
      have hxc2 : x = c := by simpa using hxc
      subst hxc2
      have := (hiff (10 * r + x) (by omega)).mpr ⟨by omega, by omega, by omega⟩
      simpa using this
  rw [List.countP_congr hcongr, ← List.count_eq_countP]
  exact List.count_eq_one_of_mem (List.nodup_range _) (List.mem_range.mpr hc)

theorem find_vertical_eq (gt : List (List Char)) (sym : Char) (row col c0 : Nat)
    (hfind : (List.range 10).find? (fun r => (gt.getD r []).contains sym) = some c0) :
    Board.find_vertical gt sym row col = (c0, (gt.getD c0 []).indexOf sym) := by
  rw [Board.find_vertical, hfind]

theorem find_vertical_found (gt : List (List Char)) (sym : Char)
    (hex : ∃ r, r < 10 ∧ sym ∈ gt.getD r []) :
    ∃ c0, c0 < 10 ∧ sym ∈ gt.getD c0 [] ∧
      (List.range 10).find? (fun r => (gt.getD r []).contains sym) = some c0 := by
  have hisSome : ((List.range 10).find? (fun r => (gt.getD r []).contains sym)).isSome := by
    rw [List.find?_isSome]
    obtain ⟨r, hr, hmem⟩ := hex
    exact ⟨r, List.mem_range.mpr hr, (contains_iff _ _).mpr hmem⟩
  obtain ⟨c0, hc0⟩ := Option.isSome_iff_exists.mp hisSome
  refine ⟨c0, ?_, ?_, hc0⟩
  · exact List.mem_range.mp (List.mem_of_find?_eq_some hc0)
  · have hp := List.find?_some hc0
    exact (contains_iff _ _).mp (by simpa using hp)

theorem ship_placed_ok_horiz (grid : List Char) (sym : Char) (n : Nat)
    (hs : ((Board.grid_as_matrix grid).getD (grid.indexOf sym / 10) []).count sym ≠ 1) :
    Board.ship_placed_ok grid sym n =
      (decide (grid.indexOf sym % 10 + n ≤ 10) &&
        ((((Board.grid_as_matrix grid).getD (grid.indexOf sym / 10) []).drop
          (grid.indexOf sym % 10)).take n == List.replicate n sym)) := by
  rw [Board.ship_placed_ok]
  rw [if_neg (by simpa using hs), if_neg (by simpa using hs)]

theorem ship_placed_ok_vert (grid : List Char) (sym : Char) (n : Nat)
    (hs : ((Board.grid_as_matrix grid).getD (grid.indexOf sym / 10) []).count sym = 1) :
    Board.ship_placed_ok grid sym n =
      (decide ((Board.find_vertical (Board.pyZip (Board.grid_as_matrix grid)) sym
          (grid.indexOf sym / 10) (grid.indexOf sym % 10)).2 + n ≤ 10) &&
        ((((Board.pyZip (Board.grid_as_matrix grid)).getD
            (Board.find_vertical (Board.pyZip (Board.grid_as_matrix grid)) sym
              (grid.indexOf sym / 10) (grid.indexOf sym % 10)).1 []).drop
          (Board.find_vertical (Board.pyZip (Board.grid_as_matrix grid)) sym
            (grid.indexOf sym / 10) (grid.indexOf sym % 10)).2).take n
          == List.replicate n sym)) := by
  rw [Board.ship_placed_ok]
  rw [if_pos (by simpa using hs), if_pos (by simpa using hs)]


/-- The per-ship placement check of `validate_starting_grid` accepts
exactly the grids in which all occurrences of the symbol form one
contiguous straight horizontal or vertical run of the ship's length
(assuming the earlier length and count checks passed). -/
theorem placed_iff (grid : List Char) (sym : Char) (n : Nat)
    (h100 : grid.length = 100) (hcount : grid.count sym = n)
    (hn2 : 2 ≤ n) (hn10 : n ≤ 10) :
    Board.ship_placed_ok grid sym n = true ↔
      (SpecHoriz grid sym n ∨ SpecVert grid sym n) := by
  have hmem : sym ∈ grid := by
    rw [← List.count_pos_iff, hcount]
    omega
  have hi100 : grid.indexOf sym < 100 := by
    have := List.indexOf_lt_length.mpr hmem
    omega
  have hvali : cell grid (grid.indexOf sym) = sym := getD_indexOf grid sym hmem
  have hrow10 : grid.indexOf sym / 10 < 10 := by omega
  have hcol10 : grid.indexOf sym % 10 < 10 := by omega
  constructor
  · intro hok
    by_cases hs1 :
        ((Board.grid_as_matrix grid).getD (grid.indexOf sym / 10) []).count sym = 1
    · right
      have hcolmem : sym ∈ (Board.pyZip (Board.grid_as_matrix grid)).getD
          (grid.indexOf sym % 10) [] := by
        rw [mem_col_iff grid h100 _ hcol10]
        refine ⟨grid.indexOf sym / 10, hrow10, ?_⟩
        have hdm : 10 * (grid.indexOf sym / 10) + grid.indexOf sym % 10 =
            grid.indexOf sym := by omega
        rw [hdm]
        exact hvali
      obtain ⟨c0, hc0_10, hc0_mem, hfind⟩ := find_vertical_found _ sym
        ⟨grid.indexOf sym % 10, hcol10, hcolmem⟩
      rw [ship_placed_ok_vert grid sym n hs1,
        find_vertical_eq _ _ _ _ _ hfind, Bool.and_eq_true] at hok
      obtain ⟨hle_b, hslice_b⟩ := hok
      have hle : ((Board.pyZip (Board.grid_as_matrix grid)).getD c0 []).indexOf sym
          + n ≤ 10 := by simpa using hle_b
      have hslice : (((Board.pyZip (Board.grid_as_matrix grid)).getD c0 []).drop
          (((Board.pyZip (Board.grid_as_matrix grid)).getD c0 []).indexOf sym)).take n =
          List.replicate n sym := by simpa using hslice_b
      have hLlen : ((Board.pyZip (Board.grid_as_matrix grid)).getD c0 []).length = 10 :=
        col_length grid h100 c0 hc0_10
      have hcells : ∀ j, j < n → cell grid
          (10 * (((Board.pyZip (Board.grid_as_matrix grid)).getD c0 []).indexOf sym + j)
            + c0) = sym := by
        intro j hj
        have hcl := (slice_replicate_iff _ _ n sym (by omega)).mp hslice j hj
        rw [← col_cell grid h100 c0 hc0_10 _ (by omega)]
        exact hcl
      exact SpecVert_of_run grid sym n h100 hcount (by omega) c0 _ hc0_10 hle hcells
    · left
      rw [ship_placed_ok_horiz grid sym n hs1, gam_getD grid h100 _ hrow10,
        Bool.and_eq_true] at hok
      obtain ⟨hle_b, hslice_b⟩ := hok
      have hle : grid.indexOf sym % 10 + n ≤ 10 := by simpa using hle_b
      have hslice : (((grid.drop (10 * (grid.indexOf sym / 10))).take 10).drop
          (grid.indexOf sym % 10)).take n = List.replicate n sym := by
        simpa using hslice_b
      have hRlen := row_length grid h100 _ hrow10
      have hcells : ∀ j, j < n → cell grid
          (10 * (grid.indexOf sym / 10) + (grid.indexOf sym % 10 + j)) = sym := by
        intro j hj
        have hcl := (slice_replicate_iff _ _ n sym (by rw [hRlen]; omega)).mp hslice j hj
        rw [← row_cell grid h100 _ hrow10 _ (by omega)]
        exact hcl
      exact SpecHoriz_of_run grid sym n h100 hcount (by omega) _ _ hrow10 hle hcells
  · rintro (⟨r, c, hr, hcn, hiff⟩ | ⟨c, r, hc, hrn, hiff⟩)
    · have hio := indexOf_horiz grid sym n h100 r c hr hcn (by omega) hiff
      have hdiv : (10 * r + c) / 10 = r := by omega
      have hmod : (10 * r + c) % 10 = c := by omega
      have hsne : ((Board.grid_as_matrix grid).getD (grid.indexOf sym / 10) []).count sym
          ≠ 1 := by
        rw [hio, hdiv, gam_getD grid h100 r hr, row_count grid h100 r hr]
        exact sir_horiz_ne_one grid sym n h100 r c hr hcn hn2 hiff
      rw [ship_placed_ok_horiz grid sym n hsne, hio, hdiv, hmod,
        gam_getD grid h100 r hr, Bool.and_eq_true]
      constructor
      · simpa using hcn
      · have hsl : (((grid.drop (10 * r)).take 10).drop c).take n =
            List.replicate n sym := by
          rw [slice_replicate_iff _ _ _ _ (by rw [row_length grid h100 r hr]; omega)]
          intro j hj
          rw [row_cell grid h100 r hr (c + j) (by omega)]
          exact (hiff (10 * r + (c + j)) (by omega)).mpr ⟨by omega, by omega, by omega⟩
        simpa using hsl
    · have hio := indexOf_vert grid sym n h100 c r hc hrn (by omega) hiff
      have hdiv : (10 * r + c) / 10 = r := by omega
      have hmod : (10 * r + c) % 10 = c := by omega
      have hr10 : r < 10 := by omega
      have hs1 : ((Board.grid_as_matrix grid).getD (grid.indexOf sym / 10) []).count sym
          = 1 := by
        rw [hio, hdiv, gam_getD grid h100 r hr10, row_count grid h100 r hr10]
        exact sir_vert_eq_one grid sym n h100 c r hc hrn (by omega) hiff
      have hexists : ∃ rr, rr < 10 ∧
          sym ∈ (Board.pyZip (Board.grid_as_matrix grid)).getD rr [] := by
        refine ⟨c, hc, ?_⟩
        rw [mem_col_iff grid h100 c hc]
        exact ⟨r, by omega,
          (hiff (10 * r + c) (by omega)).mpr ⟨by omega, by omega, by omega⟩⟩
      obtain ⟨c0, hc0_10, hc0_mem, hfind⟩ := find_vertical_found _ sym hexists
      have hc0c : c0 = c := by
        rw [mem_col_iff grid h100 c0 hc0_10] at hc0_mem
        obtain ⟨rr, hrr, hcell⟩ := hc0_mem
        have := (hiff (10 * rr + c0) (by omega)).mp hcell
        omega
      subst hc0c
      have hLidx : ((Board.pyZip (Board.grid_as_matrix grid)).getD c0 []).indexOf sym
          = r := by
        refine indexOf_eq_of_min _ sym r
          (by rw [col_length grid h100 c0 hc0_10]; omega) ?_ ?_
        · rw [col_cell grid h100 c0 hc0_10 r (by omega)]
          exact (hiff (10 * r + c0) (by omega)).mpr ⟨by omega, by omega, by omega⟩
        · intro k hk hvalk
          rw [col_cell grid h100 c0 hc0_10 k (by omega)] at hvalk
          have := (hiff (10 * k + c0) (by omega)).mp hvalk
          omega
      rw [ship_placed_ok_vert grid sym n hs1, find_vertical_eq _ _ _ _ _ hfind, hLidx,
        Bool.and_eq_true]
      constructor
      · simpa using hrn
      · have hsl : (((Board.pyZip (Board.grid_as_matrix grid)).getD c0 []).drop r).take n
            = List.replicate n sym := by
          rw [slice_replicate_iff _ _ _ _ (by rw [col_length grid h100 c0 hc0_10]; omega)]
          intro j hj
          rw [col_cell grid h100 c0 hc0_10 (r + j) (by omega)]
          exact (hiff (10 * (r + j) + c0) (by omega)).mpr ⟨by omega, by omega, by omega⟩
        simpa using hsl


/-- Bridge between the catalog-indexed conditions and the claim's literal
per-symbol conditions. -/
theorem ships_forall_iff (P : Char → Nat → Prop) :
    (∀ s ∈ ships, P s.symbol s.size) ↔
      (P 'C' 5 ∧ P 'B' 4 ∧ P 'R' 3 ∧ P 'S' 3 ∧ P 'D' 2) := by
  constructor
  · intro h
    exact ⟨h ⟨"Carrier", 'C', 5⟩ (by decide), h ⟨"Battleship", 'B', 4⟩ (by decide),
      h ⟨"Cruiser", 'R', 3⟩ (by decide), h ⟨"Submarine", 'S', 3⟩ (by decide),
      h ⟨"Destroyer", 'D', 2⟩ (by decide)⟩
  · rintro ⟨h1, h2, h3, h4, h5⟩ s hs
    simp only [ships, List.mem_cons, List.not_mem_nil, or_false] at hs
    rcases hs with h | h | h | h | h <;> subst h
    · exact h1
    · exact h2
    · exact h3
    · exact h4
    · exact h5

/-- C1: `Board(startingGrid)` constructs a board exactly when the four
spec conditions hold: length 100, per-symbol counts matching the catalog
lengths, character set exactly the five symbols plus the empty marker, and
one straight contiguous run per ship (diagonal, split, or bent placements
are rejected). -/
theorem claim_C1_validation (grid : List Char) :
    (Board.mk? grid).isSome = true ↔ SpecValidGrid grid := by
  have hAS : Board.allowedStart = ({'C', 'B', 'R', 'S', 'D', '.'} : Finset Char) := by
    decide
  constructor
  · intro h
    have hval : Board.validate_starting_grid grid = true := by
      by_cases hv : Board.validate_starting_grid grid = true
      · exact hv
      · rw [Board.mk?, if_neg hv] at h
        simp at h
    obtain ⟨h100, hcounts, hset, hplace⟩ := Board.validate_parts grid hval
    refine ⟨h100, ?_, by rw [hset, hAS], ?_⟩
    · exact (ships_forall_iff (fun c k => grid.count c = k)).mp hcounts
    · refine (ships_forall_iff (fun c k => SpecHoriz grid c k ∨ SpecVert grid c k)).mp ?_
      intro s hs
      obtain ⟨-, hsize2, hsize10, -, -⟩ := Board.ship_facts s hs
      exact (placed_iff grid s.symbol s.size h100 (hcounts s hs) hsize2 hsize10).mp
        (hplace s hs)
  · rintro ⟨h100, hcounts, hset, hplace⟩
    have hcounts2 : ∀ s ∈ ships, grid.count s.symbol = s.size :=
      (ships_forall_iff (fun c k => grid.count c = k)).mpr hcounts
    have hplace2 : ∀ s ∈ ships, SpecHoriz grid s.symbol s.size ∨ SpecVert grid s.symbol s.size :=
      (ships_forall_iff (fun c k => SpecHoriz grid c k ∨ SpecVert grid c k)).mpr hplace
    have hval : Board.validate_starting_grid grid = true := by
      rw [Board.validate_starting_grid, Bool.and_eq_true, Bool.and_eq_true,
        Bool.and_eq_true]
      refine ⟨⟨⟨by simpa using h100, ?_⟩, by rw [hAS]; simpa using hset⟩, ?_⟩
      · rw [List.all_eq_true]
        intro s hs
        simpa using (hcounts2 s hs).symm
      · rw [List.all_eq_true]
        intro s hs
        obtain ⟨-, hsize2, hsize10, -, -⟩ := Board.ship_facts s hs
        exact (placed_iff grid s.symbol s.size h100 (hcounts2 s hs) hsize2 hsize10).mpr
          (hplace2 s hs)
    rw [Board.mk?, if_pos hval]
    rfl


/-- C1 witness: the standard fleet layout satisfies the four spec
conditions, via a successful construction. -/
theorem claim_C1_witness : SpecValidGrid stdFleet :=
  (claim_C1_validation stdFleet).mp (by rfl)


end Battleships
